import Mathlib

/-!
Verification development for the resume-parsing pipeline and ATS scoring
engine of the Resume-Builder-Frontend repository.

Strings are modelled as lists of characters ( abbrev Str ).  JavaScript
regular expressions are hand-compiled to explicit scanning functions with
the same leftmost-match / ordered-alternation / greedy-with-backtracking
semantics as the source patterns; each scanner is named after and kept next
to the regex it embeds.  JavaScript number arithmetic on integer scores is
modelled with Int/Rat, and Math.round as the floor of x + 1/2.
-/

namespace Resume

abbrev Str := List Char

def str (s : String) : Str := s.toList

/-- JS \s whitespace test (ASCII subset: space, tab, newline, CR, FF, VT). -/
def isWsChar (c : Char) : Bool :=
  c = ' ' ∨ c = '\t' ∨ c = '\n' ∨ c = '\x0d' ∨ c = '\x0c' ∨ c = '\x0b'

def isDigitChar (c : Char) : Bool :=
  48 ≤ c.toNat ∧ c.toNat ≤ 57

/-- JS \w word character: ASCII letter, digit or underscore. -/
def isWordChar (c : Char) : Bool :=
  (65 ≤ c.toNat ∧ c.toNat ≤ 90) ∨ (97 ≤ c.toNat ∧ c.toNat ≤ 122) ∨
    isDigitChar c ∨ c = '_'

def isUpperChar (c : Char) : Bool := 65 ≤ c.toNat ∧ c.toNat ≤ 90

def isLowerAlpha (c : Char) : Bool := 97 ≤ c.toNat ∧ c.toNat ≤ 122

def isAlphaChar (c : Char) : Bool := isUpperChar c ∨ isLowerAlpha c

/-- String.prototype.toLowerCase for the ASCII range (all inputs handled by
the pipeline are ASCII). -/
def toLowerChar (c : Char) : Char :=
  if 65 ≤ c.toNat ∧ c.toNat ≤ 90 then Char.ofNat (c.toNat + 32) else c

def lowerStr (s : Str) : Str := s.map toLowerChar

/-- Case-insensitive character comparison (used by /i regexes). -/
def eqCI (a b : Char) : Bool := toLowerChar a = toLowerChar b

def trimLeft : Str → Str
  | [] => []
  | c :: r => if isWsChar c then trimLeft r else c :: r

def trimStr (s : Str) : Str := ((trimLeft s.reverse).reverse : Str) |> trimLeft

/-- String.prototype.split(sep) for a single-character separator; JS returns
[ "" ] on the empty string and keeps empty pieces. -/
def splitChar (sep : Char) : Str → List Str
  | [] => [[]]
  | c :: r =>
    let rest := splitChar sep r
    if c = sep then [] :: rest
    else match rest with
      | [] => [[c]]
      | p :: ps => (c :: p) :: ps

/-- Array.prototype.join(sep) for single-character separators. -/
def joinChar (sep : Char) : List Str → Str
  | [] => []
  | [p] => p
  | p :: ps => p ++ sep :: joinChar sep ps

def startsWithB : Str → Str → Bool
  | [], _ => true
  | _ :: _, [] => false
  | n :: ns, h :: hs => n = h ∧ startsWithB ns hs

/-- String.prototype.includes: needle occurs contiguously in hay. -/
def containsB (needle hay : Str) : Bool :=
  if startsWithB needle hay then true
  else match hay with
    | [] => false
    | _ :: hs => containsB needle hs

def endsWithB (needle hay : Str) : Bool := startsWithB needle.reverse hay.reverse

/-- Case-insensitive literal prefix strip (for /i regex literals). -/
def stripCI : Str → Str → Option Str
  | [], s => some s
  | _ :: _, [] => none
  | n :: ns, h :: hs => if eqCI n h then stripCI ns hs else none

/-- Case-sensitive literal prefix strip. -/
def stripCS : Str → Str → Option Str
  | [], s => some s
  | _ :: _, [] => none
  | n :: ns, h :: hs => if n = h then stripCS ns hs else none

/-- Greedy \s* when the following atom cannot match whitespace: consume the
whole whitespace run. -/
def dropWs : Str → Str
  | [] => []
  | c :: r => if isWsChar c then dropWs r else c :: r

/-- Zero-width \b between the previous character and the next one. -/
def atBoundary (prev next : Option Char) : Bool :=
  let w : Option Char → Bool := fun o => match o with
    | none => false
    | some c => isWordChar c
  w prev ≠ w next

/-- Take exactly n leading digits. -/
def takeDigitsN : Nat → Str → Option (Str × Str)
  | 0, s => some ([], s)
  | _ + 1, [] => none
  | n + 1, c :: r =>
    if isDigitChar c then
      match takeDigitsN n r with
      | some (d, r') => some (c :: d, r')
      | none => none
    else none

/-- Greedy maximal run of characters satisfying f, returning (run, rest). -/
def takeRun (f : Char → Bool) : Str → Str × Str
  | [] => ([], [])
  | c :: r =>
    if f c then
      let (run, rest) := takeRun f r
      (c :: run, rest)
    else ([], c :: r)

/-- Leftmost-match search from a given position: try the position matcher
(which also receives the previous character, for \b) at every position from
left to right, including the end-of-string position. -/
def scanPos (f : Option Char → Str → Option α) : Option Char → Str → Option α
  | prev, [] => f prev []
  | prev, c :: r =>
    match f prev (c :: r) with
    | some x => some x
    | none => scanPos f (some c) r

/-- Leftmost-match search over the whole string. -/
def scanFirst (f : Option Char → Str → Option α) (s : Str) : Option α :=
  scanPos f none s

/-! ## parseDate (section-detector source, lines 367-415)

export function parseDate(dateStr) of the section detection engine:
empty → undefined; "present"/"current" → undefined; month-name + year;
bare 4-digit year; MM/YYYY — tried in exactly that source order. -/

/-- The month-name alternation
(jan(uary)?|feb(ruary)?|mar(ch)?|apr(il)?|may|jun(e)?|jul(y)?|aug(ust)?|sep(t(ember)?)?|oct(ober)?|nov(ember)?|dec(ember)?)
compiled to greedy-ordered spelling lists per alternative. -/
def monthSpellGroups : List (List Str) :=
  [ [ str "january", str "jan" ], [ str "february", str "feb" ],
    [ str "march", str "mar" ], [ str "april", str "apr" ], [ str "may" ],
    [ str "june", str "jun" ], [ str "july", str "jul" ],
    [ str "august", str "aug" ], [ str "september", str "sept", str "sep" ],
    [ str "october", str "oct" ], [ str "november", str "nov" ],
    [ str "december", str "dec" ] ]

def allMonthSpellings : List Str := monthSpellGroups.flatten

def monthMapPairs : List (Str × Str) :=
  [ (str "jan", str "01"), (str "feb", str "02"), (str "mar", str "03"),
    (str "apr", str "04"), (str "may", str "05"), (str "jun", str "06"),
    (str "jul", str "07"), (str "aug", str "08"), (str "sep", str "09"),
    (str "oct", str "10"), (str "nov", str "11"), (str "dec", str "12") ]

/-- monthMap[month]: JS yields undefined on a missing key, which would be
interpolated as the string "undefined". -/
def monthMap (m : Str) : Str :=
  match monthMapPairs.lookup m with
  | some code => code
  | none => str "undefined"

/-- Try one spelling at the position, then continue with k (backtracking
through the greedy-ordered list of spellings). -/
def trySpellings (k : Str → Option α) : List Str → Str → Option α
  | [], _ => none
  | sp :: sps, s =>
    match stripCI sp s with
    | some rest =>
      match k rest with
      | some x => some x
      | none => trySpellings k sps s
    | none => trySpellings k sps s

/-- One month alternative with continuation k returning the matched spelling. -/
def tryMonthGroups (k : Str → Option α) : List (List Str) → Str →
    Option (Str × α)
  | [], _ => none
  | g :: gs, s =>
    match trySpellingsTagged k g s with
    | some x => some x
    | none => tryMonthGroups k gs s
where
  trySpellingsTagged (k : Str → Option α) : List Str → Str → Option (Str × α)
    | [], _ => none
    | sp :: sps, s =>
      match stripCI sp s with
      | some rest =>
        match k rest with
        | some x => some (sp, x)
        | none => trySpellingsTagged k sps s
      | none => trySpellingsTagged k sps s

/-- Position matcher for /(month-alternation)\s*(\d{4})/i : month spelling,
then \s* (greedy; the following atom is a digit, so the whole run is
consumed), then exactly four digits.  Returns (spelling, year digits). -/
def monthYearAt (s : Str) : Option (Str × Str) :=
  tryMonthGroups
    (fun rest =>
      match takeDigitsN 4 (dropWs rest) with
      | some (y, _) => some y
      | none => none)
    monthSpellGroups s

/-- str.match(/(month)\s*(\d{4})/i): leftmost match, as capture pair. -/
def monthYearSearchPD (s : Str) : Option (Str × Str) :=
  scanFirst (fun _ t => monthYearAt t) s

/-- Position matcher for /\b(\d{4})\b/. -/
def yearAt (prev : Option Char) (s : Str) : Option Str :=
  if atBoundary prev s.head? then
    match takeDigitsN 4 s with
    | some (y, rest) =>
      if atBoundary (y.getLast?) rest.head? then some y else none
    | none => none
  else none

def yearSearch (s : Str) : Option Str := scanFirst yearAt s

/-- Continuation \/(\d{4}) of the MM/YYYY pattern: a slash then four digits. -/
def slashYear : Str → Option Str
  | [] => none
  | c :: r2 =>
    if c = '/' then
      match takeDigitsN 4 r2 with
      | some (y, _) => some y
      | none => none
    else none

/-- Backtracked single-digit variant of the \d{1,2} in /(\d{1,2})\/(\d{4})/. -/
def mmYyyyAtOne (s : Str) : Option (Str × Str) :=
  match takeDigitsN 1 s with
  | some (m1, rest1) =>
    match slashYear rest1 with
    | some y => some (m1, y)
    | none => none
  | none => none

/-- Position matcher for /(\d{1,2})\/(\d{4})/ : greedy \d{1,2} (two digits
first, then backtrack to one), a slash, then four digits. -/
def mmYyyyAt (s : Str) : Option (Str × Str) :=
  match takeDigitsN 2 s with
  | some (mm, rest) =>
    match slashYear rest with
    | some y => some (mm, y)
    | none => mmYyyyAtOne s
  | none => mmYyyyAtOne s

def mmYyyySearch (s : Str) : Option (Str × Str) :=
  scanFirst (fun _ t => mmYyyyAt t) s

/-- String.prototype.padStart(2, "0"). -/
def padStart2 (s : Str) : Str :=
  if s.length ≥ 2 then s else
    if s.length = 1 then '0' :: s else [ '0', '0' ]

/-- parseDate from the section-detector source. -/
def parseDate (dateStr : Str) : Option Str :=
  if dateStr = [] then none
  else
    let s := trimStr (lowerStr dateStr)
    if s = str "present" ∨ s = str "current" then none
    else
      match monthYearSearchPD s with
      | some (spelling, year) =>
        some (year ++ '-' :: monthMap (spelling.take 3))
      | none =>
        match yearSearch s with
        | some y => some (y ++ str "-01")
        | none =>
          match mmYyyySearch s with
          | some (mm, yyyy) => some (yyyy ++ '-' :: padStart2 mm)
          | none => none

/-- YYYY-MM shape with an arbitrary two-digit month field. -/
def dateShape (r : Str) : Bool :=
  match r with
  | [a, b, c, d, e, f, g] =>
    isDigitChar a && isDigitChar b && isDigitChar c && isDigitChar d &&
      decide (e = '-') && isDigitChar f && isDigitChar g
  | _ => false

/-- The spec claim format ^\d{4}-(0[1-9]|1[0-2])$ : YYYY-MM with the month
field between 01 and 12. -/
def claimDateShape (r : Str) : Bool :=
  match r with
  | [_, _, _, _, _, f, g] =>
    let m := (f.toNat - 48) * 10 + (g.toNat - 48)
    dateShape r && decide (1 ≤ m) && decide (m ≤ 12)
  | _ => false

/-! ## ATS scoring engine (template-context source)

Data model from resume-sections.ts / extended-resume-context; keyword
extraction, sub-score computation and calculateATSScore from the
template-context source, lines 120-860. -/

structure PersonalInfo where
  fullName : Str
  jobTitle : Str
  email : Str
  phone : Str
  location : Str
  summary : Str
deriving DecidableEq, Repr

structure Experience where
  id : Str
  company : Str
  position : Str
  startDate : Str
  endDate : Str
  current : Bool
  description : Str
deriving DecidableEq, Repr

structure Education where
  id : Str
  institution : Str
  degree : Str
  field : Str
  startDate : Str
  endDate : Str
  description : Str
deriving DecidableEq, Repr

structure Project where
  id : Str
  name : Str
  role : Option Str
  url : Option Str
  startDate : Option Str
  endDate : Option Str
  current : Option Bool
  description : Str
  technologies : Option (List Str)
deriving DecidableEq, Repr

structure Certification where
  id : Str
  name : Str
  issuer : Str
  issueDate : Option Str
  expiryDate : Option Str
  credentialId : Option Str
  credentialUrl : Option Str
  noExpiry : Option Bool
deriving DecidableEq, Repr

structure ExpertiseArea where
  id : Str
  category : Str
  keywords : List Str
deriving DecidableEq, Repr

/-- ProfileLink.type from the source union of string literals is modelled
as a plain string. -/
structure ProfileLink where
  id : Str
  linkType : Str
  url : Str
  label : Option Str
deriving DecidableEq, Repr

structure SectionConfig where
  id : Str
  enabled : Bool
  order : Int
deriving DecidableEq, Repr

structure ExtendedResumeData where
  personal : PersonalInfo
  experiences : List Experience
  education : List Education
  skills : List Str
  projects : List Project
  certifications : List Certification
  expertiseAreas : List ExpertiseArea
  links : List ProfileLink
  sectionConfig : List SectionConfig
deriving DecidableEq, Repr

inductive SuggCategory where
  | critical
  | important
  | optionalC
deriving DecidableEq, Repr

/-- Suggestion; the source field named like the Lean keyword for sections
is rendered here as sectionName. -/
structure Suggestion where
  id : Str
  category : SuggCategory
  sectionName : Str
  message : Str
  action : Option Str
deriving DecidableEq, Repr

structure ATSBreakdown where
  completeness : Int
  keywords : Int
  formatting : Int
  content : Int
deriving DecidableEq, Repr

structure ATSScore where
  overall : Int
  breakdown : ATSBreakdown
  suggestions : List Suggestion
  matchedKeywords : List Str
  missingKeywords : List Str
deriving DecidableEq, Repr

structure KeywordAnalysis where
  extracted : List Str
  matched : List Str
  missing : List Str
  matchRate : Int
deriving DecidableEq, Repr

/-- STOP_WORDS set, in source order. -/
def stopWords : List Str :=
  [ str "a", str "an", str "and", str "are", str "as", str "at", str "be",
    str "by", str "for", str "from", str "has", str "have", str "in",
    str "is", str "it", str "of", str "on", str "or", str "that", str "the",
    str "to", str "was", str "were", str "will", str "with", str "you",
    str "your", str "we", str "our", str "their", str "they", str "this",
    str "these", str "those", str "can", str "could", str "would",
    str "should", str "may", str "might", str "must", str "shall",
    str "need", str "about", str "above", str "after", str "before",
    str "between", str "into", str "through", str "during", str "under",
    str "again", str "further", str "then", str "once", str "here",
    str "there", str "when", str "where", str "why", str "how", str "all",
    str "each", str "few", str "more", str "most", str "other", str "some",
    str "such", str "no", str "nor", str "not", str "only", str "own",
    str "same", str "so", str "than", str "too", str "very", str "just",
    str "but", str "if", str "because", str "until", str "while",
    str "also", str "both", str "either", str "neither", str "experience",
    str "work", str "working", str "worked", str "job", str "position",
    str "role", str "team", str "company", str "years", str "year",
    str "etc", str "including", str "include", str "includes" ]

/-- TECH_KEYWORDS set, in source order. -/
def techKeywords : List Str :=
  [ str "javascript", str "typescript", str "python", str "java",
    str "c++", str "c#", str "ruby", str "go", str "rust", str "swift",
    str "kotlin", str "php", str "scala", str "r", str "matlab",
    str "sql", str "html", str "css", str "sass",
    str "react", str "angular", str "vue", str "node", str "express",
    str "django", str "flask", str "spring", str "rails", str "laravel",
    str "nextjs", str "gatsby", str "nuxt", str "svelte", str "jquery",
    str "bootstrap", str "tailwind", str "redux", str "graphql",
    str "rest", str "api", str "microservices",
    str "aws", str "azure", str "gcp", str "docker", str "kubernetes",
    str "jenkins", str "terraform", str "ansible", str "ci/cd",
    str "devops", str "linux", str "unix", str "git", str "github",
    str "gitlab", str "bitbucket",
    str "mysql", str "postgresql", str "mongodb", str "redis",
    str "elasticsearch", str "dynamodb", str "oracle", str "sqlite",
    str "cassandra", str "firebase", str "supabase",
    str "machine learning", str "deep learning", str "ai",
    str "tensorflow", str "pytorch", str "pandas", str "numpy",
    str "scikit-learn", str "nlp", str "computer vision",
    str "data science", str "analytics",
    str "leadership", str "communication", str "collaboration",
    str "problem-solving", str "analytical", str "strategic",
    str "agile", str "scrum", str "kanban", str "project management",
    str "stakeholder" ]

/-- Characters kept by the normalization replace(/[^\w\s\-\/+#.]/g, ' '). -/
def keepKwChar (c : Char) : Bool :=
  isWordChar c ∨ isWsChar c ∨ c = '-' ∨ c = '/' ∨ c = '+' ∨ c = '#' ∨
    c = '.'

/-- One-pass worker for collapseWs, tracking whether the previous character
was whitespace. -/
def collapseWsGo (prevWs : Bool) : Str → Str
  | [] => []
  | c :: r =>
    if isWsChar c then
      if prevWs then collapseWsGo true r else ' ' :: collapseWsGo true r
    else c :: collapseWsGo false r

/-- replace(/\s+/g, ' '): collapse every whitespace run to one space. -/
def collapseWs (s : Str) : Str := collapseWsGo false s

/-- String.prototype.split(/\s+/): JS keeps an empty leading piece when the
string starts with whitespace and an empty trailing piece when it ends with
whitespace; splitting after collapsing runs to single spaces reproduces
exactly that. -/
def splitWsRuns (s : Str) : List Str := splitChar ' ' (collapseWs s)

/-- Append-if-absent, mirroring Set insertion order. -/
def pushUnique (acc : List Str) (x : Str) : List Str :=
  if acc.contains x then acc else acc ++ [x]

/-- Stable insertion (descending by key; later equal-key elements go after
earlier ones), modelling the stable Array.prototype.sort. -/
def insertDesc {α : Type} (key : α → Int) (x : α) : List α → List α
  | [] => [x]
  | y :: ys => if key x > key y then x :: y :: ys else y :: insertDesc key x ys

def sortDesc {α : Type} (key : α → Int) (l : List α) : List α :=
  l.foldl (fun acc x => insertDesc key x acc) []

def insertAsc {α : Type} (key : α → Int) (x : α) : List α → List α
  | [] => [x]
  | y :: ys => if key x < key y then x :: y :: ys else y :: insertAsc key x ys

def sortAsc {α : Type} (key : α → Int) (l : List α) : List α :=
  l.foldl (fun acc x => insertAsc key x acc) []

/-- Adjacent pairs of a list (for the bi-gram loop). -/
def adjPairs : List Str → List (Str × Str)
  | a :: b :: r => (a, b) :: adjPairs (b :: r)
  | _ => []

/-- The normalization pipeline of extractKeywords:
text.toLowerCase().replace(/[^\w\s\-\/+#.]/g, ' ').replace(/\s+/g, ' ').trim() -/
def normalizeKw (text : Str) : Str :=
  trimStr (collapseWs ((lowerStr text).map fun c =>
    if keepKwChar c then c else ' '))

/-- extractKeywords (template-context source): normalized single words of
length ≥ 2 that are not stop words, plus adjacent bi-grams that are tech
keywords, deduplicated in insertion order, then stably sorted with tech
keywords first. -/
def extractKeywords (text : Str) : List Str :=
  if text = [] then []
  else
    let normalized := normalizeKw text
    let words := splitChar ' ' normalized
    let singles := words.foldl
      (fun acc w =>
        if w.length ≥ 2 ∧ ¬stopWords.contains w then pushUnique acc w
        else acc) []
    let withBigrams := (adjPairs words).foldl
      (fun acc (p : Str × Str) =>
        let bigram := p.1 ++ ' ' :: p.2
        if techKeywords.contains bigram then pushUnique acc bigram
        else acc) singles
    sortDesc (fun kw => if techKeywords.contains kw then 1 else 0) withBigrams

/-- extractJobKeywords: weight keywords by frequency in the description
words plus a +10 bonus for tech keywords, stable sort descending, top 50. -/
def extractJobKeywords (jobDescription : Str) : List Str :=
  let keywords := extractKeywords jobDescription
  let words := splitWsRuns (lowerStr jobDescription)
  let freq : Str → Int := fun kw =>
    ((words.filter fun w => containsB kw w ∨ containsB w kw).length : Int)
  (sortDesc
    (fun kw => freq kw + (if techKeywords.contains kw then 10 else 0))
    keywords).take 50

/-- extractResumeText: all text parts in source order, empty parts dropped,
joined with single spaces. -/
def extractResumeText (r : ExtendedResumeData) : Str :=
  let parts : List Str :=
    [ r.personal.fullName, r.personal.jobTitle, r.personal.summary ]
    ++ r.experiences.flatMap (fun e => [e.company, e.position, e.description])
    ++ r.education.flatMap
        (fun e => [e.institution, e.degree, e.field, e.description])
    ++ [ joinChar ' ' r.skills ]
    ++ r.projects.flatMap (fun p =>
        [p.name, p.description] ++
          (match p.technologies with
           | some t => [joinChar ' ' t]
           | none => []))
    ++ r.certifications.flatMap (fun c => [c.name, c.issuer])
    ++ r.expertiseAreas.flatMap (fun a => [a.category, joinChar ' ' a.keywords])
  joinChar ' ' (parts.filter fun p => ¬p.isEmpty)

/-- Math.round: floor (x + 1/2), JS rounds half toward positive infinity. -/
def roundQ (x : ℚ) : Int := ⌊x + 1 / 2⌋

/-- Math.round (n / d) computed exactly in integers:
floor (n / d + 1/2) = floor ((2n + d) / (2d)); Int division by a positive
integer is floor division.  Used so that concrete scores evaluate inside
the kernel (rational arithmetic does not reduce there); the theorem
roundHalf_eq_roundQ ties it back to the rounded rational of the source. -/
def roundHalf (n : Int) (d : Nat) : Int := (2 * n + d) / ((2 * d : Nat) : Int)

def mkSugg (id : String) (c : SuggCategory) (sec msg : String)
    (act : Option String) : Suggestion :=
  ⟨str id, c, str sec, str msg, act.map str⟩

structure ScoreSug where
  score : Int
  suggestions : List Suggestion
deriving DecidableEq, Repr

/-! The completeness criteria, one named definition per source block (the
spec design notes call for a closed set of named bonuses). -/

def cpFullName (p : PersonalInfo) : Int × List Suggestion :=
  if ¬p.fullName.isEmpty then (5, [])
  else (0, [mkSugg "personal-name" .critical "Personal Info"
    "Add your full name" (some "Go to Personal Info section")])

def cpEmail (p : PersonalInfo) : Int × List Suggestion :=
  if ¬p.email.isEmpty then (5, [])
  else (0, [mkSugg "personal-email" .critical "Personal Info"
    "Add your email address" (some "Go to Personal Info section")])

def cpPhone (p : PersonalInfo) : Int × List Suggestion :=
  if ¬p.phone.isEmpty then (5, [])
  else (0, [mkSugg "personal-phone" .important "Personal Info"
    "Add your phone number" (some "Go to Personal Info section")])

def cpLocation (p : PersonalInfo) : Int × List Suggestion :=
  if ¬p.location.isEmpty then (5, [])
  else (0, [mkSugg "personal-location" .optionalC "Personal Info"
    "Add your location (city/state)" (some "Go to Personal Info section")])

def cpJobTitle (p : PersonalInfo) : Int × List Suggestion :=
  if ¬p.jobTitle.isEmpty then (5, [])
  else (0, [mkSugg "personal-title" .important "Personal Info"
    "Add your job title" (some "Go to Personal Info section")])

def cpSummary (p : PersonalInfo) : Int × List Suggestion :=
  if ¬p.summary.isEmpty ∧ p.summary.length ≥ 50 then (5, [])
  else if ¬p.summary.isEmpty then
    (2, [mkSugg "personal-summary-short" .important "Personal Info"
      "Expand your professional summary (aim for 50+ characters)"
      (some "Go to Personal Info section")])
  else (0, [mkSugg "personal-summary" .important "Personal Info"
    "Add a professional summary" (some "Go to Personal Info section")])

def cpExpCount (r : ExtendedResumeData) : Int × List Suggestion :=
  if r.experiences.length ≥ 2 then (15, [])
  else if r.experiences.length = 1 then
    (8, [mkSugg "experience-more" .optionalC "Experience"
      "Consider adding more work experience" (some "Go to Experience section")])
  else (0, [mkSugg "experience-none" .critical "Experience"
    "Add at least one work experience" (some "Go to Experience section")])

def cpExpDesc (r : ExtendedResumeData) : Int × List Suggestion :=
  let expWithDescriptions := r.experiences.filter fun e =>
    ¬e.description.isEmpty ∧ e.description.length ≥ 50
  if expWithDescriptions.length = r.experiences.length ∧
      r.experiences.length > 0 then (15, [])
  else if expWithDescriptions.length > 0 then
    (8, [mkSugg "experience-descriptions" .important "Experience"
      "Add detailed descriptions to all work experiences"
      (some "Include achievements and quantified results")])
  else (0, [])

def cpEducation (r : ExtendedResumeData) : Int × List Suggestion :=
  if r.education.length ≥ 1 then (15, [])
  else (0, [mkSugg "education-none" .important "Education"
    "Add your education history" (some "Go to Education section")])

def cpSkills (r : ExtendedResumeData) : Int × List Suggestion :=
  if r.skills.length ≥ 8 then (25, [])
  else if r.skills.length ≥ 5 then
    (18, [mkSugg "skills-more" .optionalC "Skills"
      "Add more relevant skills (aim for 8+)" (some "Go to Skills section")])
  else if r.skills.length ≥ 1 then
    (10, [mkSugg "skills-few" .important "Skills"
      "Add more skills to showcase your expertise" (some "Go to Skills section")])
  else (0, [mkSugg "skills-none" .critical "Skills"
    "Add your technical and soft skills" (some "Go to Skills section")])

/-- calculateCompletenessScore: additive point model, capped at 100. -/
def calculateCompletenessScore (r : ExtendedResumeData) : ScoreSug :=
  let p := r.personal
  let c1 := cpFullName p
  let c2 := cpEmail p
  let c3 := cpPhone p
  let c4 := cpLocation p
  let c5 := cpJobTitle p
  let c6 := cpSummary p
  let c7 := cpExpCount r
  let c8 := cpExpDesc r
  let c9 := cpEducation r
  let c10 := cpSkills r
  let score := c1.1 + c2.1 + c3.1 + c4.1 + c5.1 + c6.1 + c7.1 + c8.1 +
    c9.1 + c10.1
  ⟨min score 100,
    c1.2 ++ c2.2 ++ c3.2 ++ c4.2 ++ c5.2 ++ c6.2 ++ c7.2 ++ c8.2 ++
      c9.2 ++ c10.2⟩

def actionVerbs : List Str :=
  [ str "led", str "managed", str "developed", str "created",
    str "implemented", str "designed", str "built", str "improved",
    str "increased", str "reduced", str "achieved", str "launched",
    str "delivered", str "drove", str "spearheaded", str "orchestrated",
    str "streamlined", str "optimized" ]

/-! The formatting and content deductions, one named definition per source
check. -/

def fmtSummaryLong (r : ExtendedResumeData) : Int × List Suggestion :=
  if ¬r.personal.summary.isEmpty ∧ r.personal.summary.length > 500 then
    (10, [mkSugg "format-summary-long" .optionalC "Formatting"
      "Consider shortening your summary (recommended: 200-500 characters)"
      none])
  else (0, [])

def fmtBullets (r : ExtendedResumeData) : Int × List Suggestion :=
  let hasGoodFormatting := r.experiences.any fun e =>
    containsB (str "\n") e.description ∨ containsB (str "•") e.description ∨
      containsB (str "-") e.description
  if ¬hasGoodFormatting ∧ r.experiences.length > 0 then
    (15, [mkSugg "format-bullets" .important "Formatting"
      "Use bullet points in experience descriptions for better readability"
      (some "Start each achievement on a new line")])
  else (0, [])

/-- The quantified-achievements regex /\d+%?/ tests exactly the presence
of a digit. -/
def fmtNumbers (r : ExtendedResumeData) : Int × List Suggestion :=
  let hasNumbers := r.experiences.any fun e => e.description.any isDigitChar
  if ¬hasNumbers ∧ r.experiences.length > 0 then
    (20, [mkSugg "format-quantify" .important "Content"
      "Add quantified achievements (e.g., \x22increased sales by 25%\x22)"
      (some "Include metrics and numbers in your experience descriptions")])
  else (0, [])

def fmtActionVerbs (r : ExtendedResumeData) : Int × List Suggestion :=
  let resumeTextLower := lowerStr (extractResumeText r)
  let hasActionVerbs := actionVerbs.any fun v => containsB v resumeTextLower
  if ¬hasActionVerbs ∧ r.experiences.length > 0 then
    (15, [mkSugg "format-action-verbs" .important "Content"
      "Start bullet points with strong action verbs"
      (some "Use words like \x22Led\x22, \x22Developed\x22, \x22Achieved\x22, \x22Implemented\x22")])
  else (0, [])

/-- calculateFormattingScore: deduction model from 100, floored at 0. -/
def calculateFormattingScore (r : ExtendedResumeData) : ScoreSug :=
  let d1 := fmtSummaryLong r
  let d2 := fmtBullets r
  let d3 := fmtNumbers r
  let d4 := fmtActionVerbs r
  let score := 100 - d1.1 - d2.1 - d3.1 - d4.1
  ⟨max score 0, d1.2 ++ d2.2 ++ d3.2 ++ d4.2⟩

def ctAvgDesc (r : ExtendedResumeData) : Int × List Suggestion :=
  let total : Int := r.experiences.foldl
    (fun acc e => acc + (e.description.length : Int)) 0
  let avgDescLength : ℚ := (total : ℚ) / (max r.experiences.length 1 : ℚ)
  if avgDescLength < 100 ∧ r.experiences.length > 0 then
    (20, [mkSugg "content-short-desc" .important "Experience"
      "Expand your job descriptions with more detail"
      (some "Include 3-5 bullet points per role highlighting achievements")])
  else (0, [])

def ctDupSkills (r : ExtendedResumeData) : Int × List Suggestion :=
  let distinctLower := (r.skills.map lowerStr).foldl pushUnique []
  if r.skills.length > 0 ∧ r.skills.length = distinctLower.length then
    (0, [])
  else if r.skills.length > 0 then
    (10, [mkSugg "content-duplicate-skills" .optionalC "Skills"
      "Remove duplicate skills" none])
  else (0, [])

def ctExtras (r : ExtendedResumeData) : Int × List Suggestion :=
  if r.projects.length = 0 ∧ r.certifications.length = 0 then
    (10, [mkSugg "content-extras" .optionalC "General"
      "Consider adding projects or certifications to stand out"
      (some "Add relevant side projects or professional certifications")])
  else (0, [])

/-- calculateContentScore: deduction model from 100, floored at 0. -/
def calculateContentScore (r : ExtendedResumeData) : ScoreSug :=
  let d1 := ctAvgDesc r
  let d2 := ctDupSkills r
  let d3 := ctExtras r
  let score := 100 - d1.1 - d2.1 - d3.1
  ⟨max score 0, d1.2 ++ d2.2 ++ d3.2⟩

/-- analyzeKeywords: keyword match of a resume against a job description. -/
def analyzeKeywords (r : ExtendedResumeData) (jobDescription : Str) :
    KeywordAnalysis :=
  if (trimStr jobDescription).isEmpty then ⟨[], [], [], 0⟩
  else
    let jobKeywords := extractJobKeywords jobDescription
    let resumeText := lowerStr (extractResumeText r)
    let resumeKeywords := extractKeywords resumeText
    let isMatched := fun kw =>
      containsB kw resumeText ∨ resumeKeywords.contains kw
    let matched := jobKeywords.filter isMatched
    let missing := jobKeywords.filter fun kw => ¬isMatched kw
    let matchRate : Int :=
      if jobKeywords.length > 0 then
        roundHalf (100 * (matched.length : Int)) jobKeywords.length
      else 0
    ⟨jobKeywords, matched, missing.take 20, matchRate⟩

def intToStr (i : Int) : Str := (toString i).toList

def joinWithSep (sep : Str) : List Str → Str
  | [] => []
  | [p] => p
  | p :: ps => p ++ sep ++ joinWithSep sep ps

/-- The keyword-score block of calculateATSScore: score, matched keywords,
missing keywords and keyword suggestions, defaulting to score 70 when no
non-blank job description is supplied. -/
def keywordPartATS (r : ExtendedResumeData) (jobDescription : Option Str) :
    Int × List Str × List Str × List Suggestion :=
  match jobDescription with
  | some jd =>
    if ¬(trimStr jd).isEmpty then
      let analysis := analyzeKeywords r jd
      let sugg : List Suggestion :=
        if analysis.matchRate < 50 then
          [⟨str "keywords-low", .critical, str "Keywords",
            str "Low keyword match (" ++ intToStr analysis.matchRate ++
              str "%) - Add more relevant skills and terms",
            some (str "Consider adding: " ++
              joinWithSep (str ", ") (analysis.missing.take 5))⟩]
        else if analysis.matchRate < 70 then
          [⟨str "keywords-medium", .important, str "Keywords",
            str "Moderate keyword match (" ++ intToStr analysis.matchRate ++
              str "%) - Room for improvement",
            some (str "Missing keywords: " ++
              joinWithSep (str ", ") (analysis.missing.take 3))⟩]
        else []
      (analysis.matchRate, analysis.matched, analysis.missing, sugg)
    else (70, [], [], [])
  | none => (70, [], [], [])

/-- calculateATSScore: the main scoring entry point. -/
def calculateATSScore (r : ExtendedResumeData)
    (jobDescription : Option Str) : ATSScore :=
  let completeness := calculateCompletenessScore r
  let formatting := calculateFormattingScore r
  let content := calculateContentScore r
  let kw := keywordPartATS r jobDescription
  let keywordScore := kw.1
  let overall := roundHalf (7 * completeness.score + 6 * keywordScore +
    4 * formatting.score + 3 * content.score) 20
  let catPriority : Suggestion → Int := fun s =>
    match s.category with
    | .critical => 0
    | .important => 1
    | .optionalC => 2
  let allSuggestions := sortAsc catPriority
    (completeness.suggestions ++ formatting.suggestions ++
      content.suggestions ++ kw.2.2.2)
  { overall := overall
    breakdown :=
      { completeness := completeness.score
        keywords := keywordScore
        formatting := formatting.score
        content := content.score }
    suggestions := allSuggestions
    matchedKeywords := kw.2.1
    missingKeywords := kw.2.2.1 }

/-! Concrete resumes for the end-to-end completeness scenario (C4). -/

def expC4a : Experience :=
  ⟨ str "e1", str "Acme Inc", str "Senior Engineer", str "2020-01", [], true,
    str "- Increased sales by 25% through targeted outreach programs" ⟩

def expC4b : Experience :=
  ⟨ str "e2", str "Globex Corp", str "Engineer", str "2018-01",
    str "2020-01", false,
    str "- Reduced cloud spend by 30% across 12 production services" ⟩

def expC4c : Experience :=
  ⟨ str "e3", str "Initech LLC", str "Junior Engineer", str "2016-06",
    str "2018-01", false,
    str "- Shipped 4 customer features raising retention by 15% overall" ⟩

def eduC4a : Education :=
  ⟨ str "d1", str "State University", str "Bachelor of Science",
    str "Computer Science", str "2012-09", str "2016-05", [] ⟩

def eduC4b : Education :=
  ⟨ str "d2", str "City College", str "Associate of Arts", str "Mathematics",
    str "2010-09", str "2012-05", [] ⟩

def skillsC4 : List Str :=
  [ str "Python", str "Go", str "SQL", str "Docker", str "Kubernetes",
    str "React", str "TypeScript", str "AWS", str "Terraform", str "Linux" ]

/-- A resume satisfying exactly the hypotheses listed by the claim (name,
email, phone, 3 bulleted quantified experiences, 2 educations, 10 skills)
with location, job title and summary left empty. -/
def resumeC4 : ExtendedResumeData :=
  { personal :=
      { fullName := str "Jane Doe", jobTitle := [],
        email := str "jane@example.com", phone := str "555-123-4567",
        location := [], summary := [] }
    experiences := [expC4a, expC4b, expC4c]
    education := [eduC4a, eduC4b]
    skills := skillsC4
    projects := [], certifications := [], expertiseAreas := [], links := []
    sectionConfig := [] }

/-- The same resume with location, job title and a 50+ character summary
also present. -/
def resumeC4full : ExtendedResumeData :=
  { resumeC4 with
    personal :=
      { resumeC4.personal with
        jobTitle := str "Software Engineer"
        location := str "Austin, TX"
        summary := str
          "Seasoned engineer delivering measurable product impact at scale." } }

/-- Appending a keyword verbatim to the skills list (the operation the
keyword-monotonicity claim quantifies over). -/
def addSkill (r : ExtendedResumeData) (k : Str) : ExtendedResumeData :=
  { r with skills := r.skills ++ [k] }

/-- Resume for the keyword-monotonicity counterexample: resume text reads
"dev machine learning", so the tech bigram "machine learning" spans the
boundary between the skills segment and the projects segment. -/
def resumeKw : ExtendedResumeData :=
  { personal := ⟨ str "dev", [], [], [], [], [] ⟩
    experiences := []
    education := []
    skills := [ str "machine" ]
    projects := [ ⟨ str "p1", str "learning", none, none, none, none, none,
      [], none ⟩ ]
    certifications := [], expertiseAreas := [], links := []
    sectionConfig := [] }

def jdKw : Str := str "dev machine learning"

/-! ## Section detection engine (section-detector source)

The heading regexes of SECTION_PATTERNS are all of the form
/^(alternatives)/im and are only ever used through .test on a single
trimmed line; they are compiled to a small prefix-pattern language HPat
with the same ordered-alternation / greedy semantics.  The three
DATE_PATTERNS, URL_PATTERN and GITHUB_PATTERN carry the g flag and are
used through .test, which in JavaScript starts searching at the regex
object's persistent lastIndex and updates it; that hidden module state is
made explicit as RegexSt. -/

inductive HPat : Type where
  | emp : HPat
  | nomatch : HPat
  | lit : Str → HPat
  | ws : HPat
  | opt : HPat → HPat
  | alt2 : HPat → HPat → HPat
  | cat : HPat → HPat → HPat

/-- Remainders after consuming zero or more whitespace characters, longest
consumption first (greedy order of \s*). -/
def wsSplits : Str → List Str
  | [] => [ [] ]
  | c :: r => if isWsChar c then wsSplits r ++ [c :: r] else [c :: r]

/-- Nondeterministic prefix matcher: all remainders after matching p at the
start of s, in the backtracking order of a JS regex engine
(case-insensitive literals, greedy option). -/
def pmatch : HPat → Str → List Str
  | .emp, s => [s]
  | .nomatch, _ => []
  | .lit l, s =>
    match stripCI l s with
    | some r => [r]
    | none => []
  | .ws, s => wsSplits s
  | .opt p, s => pmatch p s ++ [s]
  | .alt2 p q, s => pmatch p s ++ pmatch q s
  | .cat p q, s => (pmatch p s).flatMap (pmatch q)

/-- regex.test for an ^-anchored pattern against one line. -/
def ptest (p : HPat) (line : Str) : Bool := ¬(pmatch p line).isEmpty

def pw (s : String) : HPat := .lit (str s)

def pcat (l : List HPat) : HPat := l.foldr .cat .emp

def palt (l : List HPat) : HPat := l.foldr .alt2 .nomatch

inductive SectionType : Type where
  | contact
  | summary
  | experience
  | education
  | skills
  | projects
  | certifications
  | links
  | unknown
deriving DecidableEq, Repr

/-- SECTION_PATTERNS compiled pattern-by-pattern. -/
def sectionPatterns : SectionType → List HPat
  | .contact =>
    [ palt [ pcat [pw "contact", .ws,
          .opt (pcat [pw "info", .opt (pw "rmation")])],
        pcat [pw "personal", .ws,
          .opt (palt [pcat [pw "info", .opt (pw "rmation")],
            pw "details"])] ],
      palt [pw "address", pw "phone", pw "email", pw "location"] ]
  | .summary =>
    [ palt [ pcat [pw "professional", .ws, pw "summary"], pw "summary",
        pw "profile", pw "objective", pcat [pw "about", .ws, pw "me"],
        pcat [pw "career", .ws, pw "objective"] ],
      palt [ pcat [pw "executive", .ws, pw "summary"],
        pcat [pw "career", .ws, pw "summary"],
        pcat [pw "personal", .ws, pw "statement"] ] ]
  | .experience =>
    [ palt [ pcat [pw "professional", .ws, pw "experience"],
        pcat [pw "work", .ws, pw "experience"], pw "experience",
        pcat [pw "employment", .opt (pcat [.ws, pw "history"])] ],
      palt [ pcat [pw "work", .ws, pw "history"],
        pcat [pw "career", .ws, pw "history"],
        pcat [pw "relevant", .ws, pw "experience"] ] ]
  | .education =>
    [ palt [ pw "education",
        pcat [pw "academic", .opt (pcat [.ws, pw "background"])],
        pcat [pw "educational", .ws, pw "background"] ],
      palt [ pw "qualifications",
        pcat [pw "academic", .ws, pw "qualifications"],
        pcat [pw "degree", .opt (pw "s")] ] ]
  | .skills =>
    [ palt [ pw "skills", pcat [pw "technical", .ws, pw "skills"],
        pcat [pw "core", .ws, pw "competencies"], pw "competencies" ],
      palt [ pcat [pw "area", .opt (pw "s"), .ws, pw "of", .ws,
          pw "expertise"],
        pcat [pw "key", .ws, pw "skills"], pw "proficiencies",
        pw "technologies" ] ]
  | .projects =>
    [ palt [ pcat [pw "project", .opt (pw "s")],
        pcat [pw "key", .ws, pw "project", .opt (pw "s")],
        pcat [pw "selected", .ws, pw "project", .opt (pw "s")],
        pcat [pw "personal", .ws, pw "project", .opt (pw "s")] ],
      palt [ pw "portfolio",
        pcat [pw "notable", .ws, pw "project", .opt (pw "s")] ] ]
  | .certifications =>
    [ palt [ pcat [pw "certification", .opt (pw "s")],
        pcat [pw "license", .opt (pw "s")],
        pcat [pw "certification", .opt (pw "s"), .ws,
          .opt (palt [pw "&", pw "and"]), .ws, pw "license",
          .opt (pw "s")] ],
      palt [ pcat [pw "professional", .ws, pw "certification",
          .opt (pw "s")],
        pcat [pw "credential", .opt (pw "s")],
        pcat [pw "accreditation", .opt (pw "s")] ] ]
  | .links =>
    [ palt [ pcat [pw "link", .opt (pw "s")],
        pcat [pw "online", .ws, pw "profile", .opt (pw "s")],
        pcat [pw "social", .ws, pw "media"],
        pcat [pw "web", .ws, pw "presence"] ],
      palt [ pcat [pw "professional", .ws, pw "link", .opt (pw "s")],
        pcat [pw "portfolio", .ws, pw "link", .opt (pw "s")] ] ]
  | .unknown => []

/-- Object.entries insertion order of SECTION_PATTERNS. -/
def sectionTypesList : List SectionType :=
  [ .contact, .summary, .experience, .education, .skills, .projects,
    .certifications, .links, .unknown ]

structure SectionMatch : Type where
  type : SectionType
  startIndex : Nat
  endIndex : Nat
  content : Str
  confidence : Nat
deriving DecidableEq, Repr

/-- The persistent lastIndex fields of the five module-level g-flagged
regexes used through .test (three DATE_PATTERNS, URL_PATTERN,
GITHUB_PATTERN). -/
structure RegexSt : Type where
  d1 : Nat
  d2 : Nat
  d3 : Nat
  url : Nat
  github : Nat
deriving DecidableEq, Repr

/-- Fresh module state: every lastIndex is 0. -/
def initRegexSt : RegexSt := ⟨0, 0, 0, 0, 0⟩

/-- First some over a list of candidates (ordered backtracking). -/
def firstSome {α β : Type} (f : α → Option β) : List α → Option β
  | [] => none
  | a :: r =>
    match f a with
    | some b => some b
    | none => firstSome f r

/-- The dash class [-–—]. -/
def isDashChar (c : Char) : Bool := c = '-' ∨ c = '–' ∨ c = '—'

/-- Remainders after the month-name alternation, in alternation order with
greedy spellings first. -/
def monthRemainders (s : Str) : List Str :=
  monthSpellGroups.flatMap fun g => g.filterMap fun sp => stripCI sp s

/-- After a dash-separated range head: \s*[-–—]\s* then the given end
matcher. -/
def dashThen (endM : Str → Option Str) (s : Str) : Option Str :=
  match dropWs s with
  | c :: r => if isDashChar c then endM (dropWs r) else none
  | [] => none

/-- Position matcher (match length) for DATE_PATTERNS[0]:
\b(month)\s*\d{4}\s*[-–—]\s*(present|current|\d{4}|(month)\s*\d{4}) -/
def dateP1At (prev : Option Char) (s : Str) : Option Nat :=
  if atBoundary prev s.head? then
    let endAlt : Str → Option Str := fun t =>
      match stripCI (str "present") t with
      | some r => some r
      | none =>
        match stripCI (str "current") t with
        | some r => some r
        | none =>
          match takeDigitsN 4 t with
          | some (_, r) => some r
          | none =>
            firstSome
              (fun r1 =>
                match takeDigitsN 4 (dropWs r1) with
                | some (_, r2) => some r2
                | none => none)
              (monthRemainders t)
    match
      firstSome
        (fun r1 =>
          match takeDigitsN 4 (dropWs r1) with
          | some (_, r2) => dashThen endAlt r2
          | none => none)
        (monthRemainders s) with
    | some rest => some (s.length - rest.length)
    | none => none
  else none

/-- Position matcher for DATE_PATTERNS[1]:
\b\d{4}\s*[-–—]\s*(present|current|\d{4})\b -/
def dateP2At (prev : Option Char) (s : Str) : Option Nat :=
  if atBoundary prev s.head? then
    let endAlt : Str → Option Str := fun t =>
      match stripCI (str "present") t with
      | some r => if atBoundary (some 't') r.head? then some r else none
      | none =>
        match stripCI (str "current") t with
        | some r => if atBoundary (some 't') r.head? then some r else none
        | none =>
          match takeDigitsN 4 t with
          | some (d, r) =>
            if atBoundary d.getLast? r.head? then some r else none
          | none => none
    match takeDigitsN 4 s with
    | some (_, r1) =>
      match dashThen endAlt r1 with
      | some rest => some (s.length - rest.length)
      | none => none
    | none => none
  else none

/-- \d{1,2}\/\d{4} with greedy backtracking, returning the remainder. -/
def mmSlashYyyy (s : Str) : Option Str :=
  match takeDigitsN 2 s with
  | some (_, r) =>
    match slashYear4Rem r with
    | some rest => some rest
    | none =>
      match takeDigitsN 1 s with
      | some (_, r1) => slashYear4Rem r1
      | none => none
  | none =>
    match takeDigitsN 1 s with
    | some (_, r1) => slashYear4Rem r1
    | none => none
where
  slashYear4Rem : Str → Option Str
    | [] => none
    | c :: r2 =>
      if c = '/' then
        match takeDigitsN 4 r2 with
        | some (_, rest) => some rest
        | none => none
      else none

/-- Position matcher for DATE_PATTERNS[2]:
\b\d{1,2}\/\d{4}\s*[-–—]\s*(\d{1,2}\/\d{4}|present|current)\b -/
def dateP3At (prev : Option Char) (s : Str) : Option Nat :=
  if atBoundary prev s.head? then
    let endAlt : Str → Option Str := fun t =>
      match mmSlashYyyy t with
      | some r =>
        if atBoundary (some '0') r.head? then some r else none
      | none =>
        match stripCI (str "present") t with
        | some r => if atBoundary (some 't') r.head? then some r else none
        | none =>
          match stripCI (str "current") t with
          | some r => if atBoundary (some 't') r.head? then some r else none
          | none => none
    match mmSlashYyyy s with
    | some r1 =>
      match dashThen endAlt r1 with
      | some rest => some (s.length - rest.length)
      | none => none
    | none => none
  else none

/-- URL_PATTERN character class [^\s<>"{}|\\^`[\]]. -/
def urlChar (c : Char) : Bool :=
  ¬(isWsChar c ∨ c = '<' ∨ c = '>' ∨ c = '\x22' ∨ c = '\x7b' ∨ c = '\x7d' ∨
    c = '|' ∨ c = '\\' ∨ c = '^' ∨ c = '\x60' ∨ c = '[' ∨ c = ']')

/-- Position matcher for URL_PATTERN /https?:\/\/[^\s<>"{}|\\^`[\]]+/i. -/
def urlAt (_ : Option Char) (s : Str) : Option Nat :=
  let tail : Str → Option Str := fun r =>
    match stripCI (str "://") r with
    | some r2 =>
      let (run, rest) := takeRun urlChar r2
      if run.isEmpty then none else some rest
    | none => none
  match stripCI (str "http") s with
  | none => none
  | some r1 =>
    let res :=
      match stripCI (str "s") r1 with
      | some r1s =>
        match tail r1s with
        | some rest => some rest
        | none => tail r1
      | none => tail r1
    match res with
    | some rest => some (s.length - rest.length)
    | none => none

/-- Position matcher for GITHUB_PATTERN /github\.com\/[\w-]+/i. -/
def githubAt (_ : Option Char) (s : Str) : Option Nat :=
  match stripCI (str "github.com/") s with
  | some r =>
    let (run, rest) := takeRun (fun c => isWordChar c ∨ c = '-') r
    if run.isEmpty then none else some (s.length - rest.length)
  | none => none

/-- Position matcher for LINKEDIN_PATTERN /linkedin\.com\/in\/[\w-]+/i. -/
def linkedinAt (_ : Option Char) (s : Str) : Option Nat :=
  match stripCI (str "linkedin.com/in/") s with
  | some r =>
    let (run, rest) := takeRun (fun c => isWordChar c ∨ c = '-') r
    if run.isEmpty then none else some (s.length - rest.length)
  | none => none

/-- Advance to an absolute offset, tracking the previous character. -/
def dropWithPrev : Nat → Option Char → Str → Option Char × Str
  | 0, prev, s => (prev, s)
  | _ + 1, prev, [] => (prev, [])
  | n + 1, _, c :: r => dropWithPrev n (some c) r

/-- Search for a match (index and length) at or after a starting offset. -/
def searchFromAux (f : Option Char → Str → Option Nat) :
    Nat → Option Char → Str → Option (Nat × Nat)
  | idx, prev, s =>
    match f prev s with
    | some len => some (idx, len)
    | none =>
      match s with
      | [] => none
      | c :: r => searchFromAux f (idx + 1) (some c) r

/-- g-flagged regex.test: search from lastIndex; on success lastIndex is
set past the match, on failure it resets to 0 (and a lastIndex beyond the
string fails immediately). -/
def gTest (f : Option Char → Str → Option Nat) (s : Str)
    (lastIndex : Nat) : Bool × Nat :=
  if lastIndex > s.length then (false, 0)
  else
    let (prev, rest) := dropWithPrev lastIndex none s
    match searchFromAux f lastIndex prev rest with
    | some (i, len) => (true, i + len)
    | none => (false, 0)

/-- DATE_PATTERNS.some((p) => p.test(content)) with short-circuiting and
lastIndex threading. -/
def datePatternsSome (content : Str) (st : RegexSt) : Bool × RegexSt :=
  let (r1, li1) := gTest dateP1At content st.d1
  if r1 then (true, { st with d1 := li1 })
  else
    let st1 := { st with d1 := li1 }
    let (r2, li2) := gTest dateP2At content st1.d2
    if r2 then (true, { st1 with d2 := li2 })
    else
      let st2 := { st1 with d2 := li2 }
      let (r3, li3) := gTest dateP3At content st2.d3
      (r3, { st2 with d3 := li3 })

/-- URL_PATTERN.test(content) || GITHUB_PATTERN.test(content) with
short-circuiting and lastIndex threading. -/
def urlGithubTest (content : Str) (st : RegexSt) : Bool × RegexSt :=
  let (r1, li1) := gTest urlAt content st.url
  if r1 then (true, { st with url := li1 })
  else
    let st1 := { st with url := li1 }
    let (r2, li2) := gTest githubAt content st1.github
    (r2, { st1 with github := li2 })

/-- Stateless word-alternation search \b(w1|w2|...)\b (case-insensitive),
as used by the confidence keyword regexes. -/
def wordAltAt (words : List Str) (prev : Option Char) (s : Str) :
    Option Unit :=
  if atBoundary prev s.head? then
    firstSome
      (fun w =>
        match stripCI w s with
        | some rest =>
          if atBoundary w.getLast? rest.head? then some () else none
        | none => none)
      words
  else none

def testWordAlt (words : List Str) (s : Str) : Bool :=
  (scanFirst (wordAltAt words) s).isSome

def companyWords : List Str :=
  [ str "inc", str "llc", str "ltd", str "corp", str "company",
    str "technologies", str "solutions" ]

def eduKeywordWords : List Str :=
  [ str "bachelor", str "master", str "phd", str "mba", str "bs",
    str "ba", str "ms", str "ma", str "degree", str "university",
    str "college", str "institute" ]

def profWords : List Str :=
  [ str "proficient", str "experienced", str "expert", str "advanced",
    str "intermediate" ]

def certWords : List Str :=
  [ str "certified", str "certificate", str "certification",
    str "license", str "credential" ]

/-- calculateConfidence: base 70, type-specific boosts, capped at 100; the
experience and projects branches consult the stateful g-regexes. -/
def calculateConfidence (t : SectionType) (content : Str) (st : RegexSt) :
    Nat × RegexSt :=
  match t with
  | .experience =>
    let (b, st') := datePatternsSome content st
    let c1 := 70 + (if b then 15 else 0)
    let c2 := c1 + (if testWordAlt companyWords content then 10 else 0)
    (min c2 100, st')
  | .education =>
    (min (70 + if testWordAlt eduKeywordWords content then 20 else 0) 100,
      st)
  | .skills =>
    let c1 := 70 +
      (if (content.filter fun c => c = ',').length > 3 then 15 else 0)
    (min (c1 + if testWordAlt profWords content then 10 else 0) 100, st)
  | .certifications =>
    (min (70 + if testWordAlt certWords content then 20 else 0) 100, st)
  | .projects =>
    let (b, st') := urlGithubTest content st
    (min (70 + if b then 15 else 0) 100, st')
  | .summary =>
    let wordCount := (splitWsRuns content).length
    (min (70 + if wordCount > 20 ∧ wordCount < 200 then 15 else 0) 100, st)
  | _ => (min 70 100, st)

/-- A line that matches any pattern of any section type. -/
def anySectionHeader (line : Str) : Bool :=
  sectionTypesList.any fun t => (sectionPatterns t).any fun p => ptest p line

/-- findSectionEnd: the line before the next recognized heading, or the
last line. -/
def findEndGo (total : Nat) : List Str → Nat → Nat
  | [], _ => total - 1
  | l :: ls, i =>
    if anySectionHeader (trimStr l) then i - 1 else findEndGo total ls (i + 1)

def findSectionEnd (lines : List Str) (startLine : Nat) : Nat :=
  findEndGo lines.length (lines.drop (startLine + 1)) (startLine + 1)

/-- One line of the detection loop: every non-unknown section type whose
patterns match the trimmed line pushes a SectionMatch (the inner pattern
loop breaks at the first matching pattern; the outer type loop
continues). -/
def lineMatches (lines : List Str) (i lineStart : Nat) (lineT : Str)
    (st : RegexSt) : List SectionMatch × RegexSt :=
  sectionTypesList.foldl
    (fun (p : List SectionMatch × RegexSt) t =>
      if t = .unknown then p
      else if (sectionPatterns t).any (fun pat => ptest pat lineT) then
        let endLine := findSectionEnd lines i
        let content := joinChar '\n' ((lines.drop i).take (endLine + 1 - i))
        let cres := calculateConfidence t content p.2
        (p.1 ++ [⟨t, lineStart, lineStart + content.length, content,
          cres.1⟩], cres.2)
      else p)
    ([], st)

/-- The line scan of detectSections, tracking character offsets
(currentIndex advances by line length + 1 for the newline). -/
def collectGo (lines : List Str) : List Str → Nat → Nat → RegexSt →
    List SectionMatch × RegexSt
  | [], _, _, st => ([], st)
  | l :: rest, i, currentIndex, st =>
    let lm := lineMatches lines i currentIndex (trimStr l) st
    let more := collectGo lines rest (i + 1) (currentIndex + l.length + 1)
      lm.2
    (lm.1 ++ more.1, more.2)

/-- resolveOverlaps worker over a reversed accumulator whose head is the
last kept match. -/
def roGo : List SectionMatch → List SectionMatch → List SectionMatch
  | acc, [] => acc
  | [], cur :: rest => roGo [cur] rest
  | p :: acc', cur :: rest =>
    if cur.startIndex > p.endIndex then roGo (cur :: p :: acc') rest
    else if cur.confidence > p.confidence then roGo (cur :: acc') rest
    else roGo (p :: acc') rest

/-- resolveOverlaps: keep the first match; a later overlapping match
replaces the kept one only when its confidence is strictly higher. -/
def resolveOverlaps (sections : List SectionMatch) : List SectionMatch :=
  match sections with
  | [] => []
  | [s] => [s]
  | s0 :: rest => (roGo [s0] rest).reverse

/-- Stable sort by startIndex (sections.sort((a, b) => a.startIndex -
b.startIndex)). -/
def sortByStart (l : List SectionMatch) : List SectionMatch :=
  sortAsc (fun s => (s.startIndex : Int)) l

/-- detectSections: line scan, stable sort by start offset, overlap
resolution; the RegexSt threading makes the hidden lastIndex state of the
module-level g-regexes explicit. -/
def detectSections (st : RegexSt) (text : Str) :
    List SectionMatch × RegexSt :=
  let lines := splitChar '\n' text
  let cres := collectGo lines lines 0 0 st
  (resolveOverlaps (sortByStart cres.1), cres.2)

/-! ## Contact extraction (section-detector source, extractContactInfo and
friends). All matches go through String.match, which resets a g-regex
lastIndex before scanning, so these functions are stateless. -/

/-- EMAIL_PATTERN local-part class [A-Za-z0-9._%+-]. -/
def emailLocalChar (c : Char) : Bool :=
  isAlphaChar c ∨ isDigitChar c ∨ c = '.' ∨ c = '_' ∨ c = '%' ∨ c = '+' ∨
    c = '-'

/-- EMAIL_PATTERN domain class [A-Za-z0-9.-]. -/
def emailDomChar (c : Char) : Bool :=
  isAlphaChar c ∨ isDigitChar c ∨ c = '.' ∨ c = '-'

/-- EMAIL_PATTERN top-level-domain class [A-Z|a-z]: letters and the
literal pipe written in the source class. -/
def emailTldChar (c : Char) : Bool := isAlphaChar c ∨ c = '|'

/-- Backtracking for the trailing [A-Z|a-z]{2,}\b of EMAIL_PATTERN: the
greedy run is passed reversed in the first argument; characters are given
back until the consumed part (of length at least 2) ends at a word
boundary. -/
def emailTldBack : Str → Str → Option Str
  | [], _ => none
  | t0 :: ttail, rest =>
    if ttail.isEmpty then none
    else if atBoundary (some t0) rest.head? then some rest
    else emailTldBack ttail (t0 :: rest)

/-- Backtracking for [A-Za-z0-9.-]+\.[A-Z|a-z]{2,}\b after the @: the
maximal domain run is passed reversed; give characters back until a '.'
follows the nonempty consumed part and the TLD part matches. -/
def emailDomBack : Str → Str → Option Str
  | [], _ => none
  | c :: crest, remaining =>
    let attempt : Option Str :=
      match remaining with
      | d :: t =>
        if d = '.' then
          let (run, rest) := takeRun emailTldChar t
          emailTldBack run.reverse rest
        else none
      | [] => none
    match attempt with
    | some rest => some rest
    | none => emailDomBack crest (c :: remaining)

/-- Position matcher for EMAIL_PATTERN
\b[A-Za-z0-9._%+-]+@[A-Za-z0-9.-]+\.[A-Z|a-z]{2,}\b. -/
def emailAt (prev : Option Char) (s : Str) : Option Nat :=
  if atBoundary prev s.head? then
    let (lpart, r1) := takeRun emailLocalChar s
    if lpart.isEmpty then none
    else
      match r1 with
      | '@' :: r2 =>
        let (drun, drest) := takeRun emailDomChar r2
        match emailDomBack drun.reverse drest with
        | some rest => some (s.length - rest.length)
        | none => none
      | _ => none
  else none

/-- text.match(pattern): the first matched substring. -/
def searchStr (f : Option Char → Str → Option Nat) (s : Str) : Option Str :=
  match searchFromAux f 0 none s with
  | some (i, len) => some ((s.drop i).take len)
  | none => none

/-- The phone separator class [-.\s]. -/
def phoneSepChar (c : Char) : Bool := c = '-' ∨ c = '.' ∨ isWsChar c

/-- Greedy optional single character: remainders with the consumed branch
first. -/
def optChar (f : Char → Bool) : Str → List Str
  | [] => [[]]
  | c :: r => if f c then [r, c :: r] else [c :: r]

/-- Exactly n digits, as a (zero- or one-element) remainder list. -/
def digitsNRem (n : Nat) (s : Str) : List Str :=
  match takeDigitsN n s with
  | some (_, r) => [r]
  | none => []

/-- \d{m,n} greedy: remainders after n digits first, down to m. -/
def digitsRange (m n : Nat) (s : Str) : List Str :=
  (List.range (n + 1 - m)).filterMap fun i =>
    match takeDigitsN (n - i) s with
    | some (_, r) => some r
    | none => none

/-- Position matcher for PHONE_PATTERNS[0] (US format)
\b\+?1?[-.\s]?\(?\d{3}\)?[-.\s]?\d{3}[-.\s]?\d{4}\b, by depth-first
backtracking over the optional atoms, greedy branch first; the character
before the final \b is always a digit, so any word character represents
it. -/
def usPhoneAt (prev : Option Char) (s : Str) : Option Nat :=
  if atBoundary prev s.head? then
    let l1 := optChar (fun c => c = '+') s
    let l2 := l1.flatMap (optChar (fun c => c = '1'))
    let l3 := l2.flatMap (optChar phoneSepChar)
    let l4 := l3.flatMap (optChar (fun c => c = '('))
    let l5 := l4.flatMap (digitsNRem 3)
    let l6 := l5.flatMap (optChar (fun c => c = ')'))
    let l7 := l6.flatMap (optChar phoneSepChar)
    let l8 := l7.flatMap (digitsNRem 3)
    let l9 := l8.flatMap (optChar phoneSepChar)
    let l10 := l9.flatMap (digitsNRem 4)
    match l10.filter (fun r => atBoundary (some '0') r.head?) with
    | rest :: _ => some (s.length - rest.length)
    | [] => none
  else none

/-- Position matcher for PHONE_PATTERNS[1] (international)
\b\+?\d{1,3}[-.\s]?\d{2,4}[-.\s]?\d{3,4}[-.\s]?\d{3,4}\b. -/
def intlPhoneAt (prev : Option Char) (s : Str) : Option Nat :=
  if atBoundary prev s.head? then
    let l1 := optChar (fun c => c = '+') s
    let l2 := l1.flatMap (digitsRange 1 3)
    let l3 := l2.flatMap (optChar phoneSepChar)
    let l4 := l3.flatMap (digitsRange 2 4)
    let l5 := l4.flatMap (optChar phoneSepChar)
    let l6 := l5.flatMap (digitsRange 3 4)
    let l7 := l6.flatMap (optChar phoneSepChar)
    let l8 := l7.flatMap (digitsRange 3 4)
    match l8.filter (fun r => atBoundary (some '0') r.head?) with
    | rest :: _ => some (s.length - rest.length)
    | [] => none
  else none

/-- [A-Z][a-z]+: an uppercase letter then a nonempty lowercase run,
returning the remainder (the run is deterministic: in every context of
use the next atom cannot match a lowercase letter). -/
def upperWordRem (s : Str) : Option Str :=
  match s with
  | c :: r =>
    if isUpperChar c then
      let (run, rest) := takeRun isLowerAlpha r
      if run.isEmpty then none else some rest
    else none
  | [] => none

/-- The ,\s*([A-Z]{2})\b tail of the location pattern. -/
def locComma : Str → Option Str
  | ',' :: r =>
    match dropWs r with
    | a :: b :: rest2 =>
      if isUpperChar a ∧ isUpperChar b ∧ atBoundary (some b) rest2.head? then
        some rest2
      else none
    | _ => none
  | _ => none

/-- Greedy (?:\s[A-Z][a-z]+)* with backtracking into the comma tail; the
fuel bounds the iteration count (each iteration consumes at least two
characters). -/
def locTailGo : Nat → Str → Option Str
  | 0, s => locComma s
  | fuel + 1, s =>
    match s with
    | c :: rest =>
      if isWsChar c then
        match upperWordRem rest with
        | some r2 =>
          match locTailGo fuel r2 with
          | some out => some out
          | none => locComma s
        | none => locComma s
      else locComma s
    | [] => locComma s

/-- Position matcher for the location pattern
\b([A-Z][a-z]+(?:\s[A-Z][a-z]+)*),\s*([A-Z]{2})\b (case sensitive). -/
def locationAt (prev : Option Char) (s : Str) : Option Nat :=
  if atBoundary prev s.head? then
    match upperWordRem s with
    | some r =>
      match locTailGo r.length r with
      | some rest => some (s.length - rest.length)
      | none => none
    | none => none
  else none

/-- text.match(/g-pattern/): all non-overlapping matches, scanning left to
right and resuming after each match. The patterns used here cannot match
the empty string, so the zero-length guard is never taken; the fuel bounds
the position count. -/
def collectAllGo (f : Option Char → Str → Option Nat) :
    Nat → Option Char → Str → List Str
  | 0, _, _ => []
  | fuel + 1, prev, s =>
    match f prev s with
    | some len =>
      if len = 0 then []
      else
        (s.take len) ::
          collectAllGo f fuel ((s.take len).getLast?) (s.drop len)
    | none =>
      match s with
      | [] => []
      | c :: r => collectAllGo f fuel (some c) r

def collectAll (f : Option Char → Str → Option Nat) (s : Str) : List Str :=
  collectAllGo f (s.length + 1) none s

/-- The contact record assembled by extractContactInfo; a missing field is
an undefined property. -/
structure ContactInfo where
  email : Option Str := none
  phone : Option Str := none
  linkedin : Option Str := none
  github : Option Str := none
  website : Option Str := none
  location : Option Str := none
deriving DecidableEq, Repr

/-- extractContactInfo: first email match, first phone match over the two
phone patterns in order, linkedin/github matches with the https:// prefix
prepended, the first URL containing neither linkedin.com nor github.com,
and the City, ST location. -/
def extractContactInfo (text : Str) : ContactInfo :=
  let email := searchStr emailAt text
  let phone :=
    match searchStr usPhoneAt text with
    | some p => some p
    | none => searchStr intlPhoneAt text
  let linkedin := (searchStr linkedinAt text).map (fun m => str "https://" ++ m)
  let github := (searchStr githubAt text).map (fun m => str "https://" ++ m)
  let urls := collectAll urlAt text
  let website := urls.find? fun u =>
    ¬(containsB (str "linkedin.com") u ∨ containsB (str "github.com") u)
  let location := searchStr locationAt text
  { email := email, phone := phone, linkedin := linkedin, github := github,
    website := website, location := location }

/-! ## extractName / extractJobTitle (section-detector source). -/

/-- One (\s+[A-Z][a-z]+) repetition: a nonempty whitespace run then a
capitalized word (both deterministic in this context). -/
def spacesWordRem (s : Str) : Option Str :=
  let (ws, rest) := takeRun isWsChar s
  if ws.isEmpty then none else upperWordRem rest

/-- The {1,3} repetitions of (\s+[A-Z][a-z]+) reaching the end of the
line. -/
def nameRepsFrom : Str → Nat → Bool
  | _, 0 => false
  | s, fuel + 1 =>
    match spacesWordRem s with
    | some rest => if rest.isEmpty then true else nameRepsFrom rest fuel
    | none => false

/-- Anchored test of /^[A-Z][a-z]+(\s+[A-Z][a-z]+){1,3}$/ (case
sensitive). -/
def nameLineTest (line : Str) : Bool :=
  match upperWordRem line with
  | some r0 => nameRepsFrom r0 3
  | none => false

/-- extractName: the first nonempty trimmed line if it is 2-4 capitalized
words, else the trimmed capture of /^name:\s*(.+)$/i; after the final
trim, the minimal-versus-greedy placement of the \s* is invisible, and
(.+) only requires the part after the colon to be nonempty. -/
def extractName (text : Str) : Option Str :=
  let lines := ((splitChar '\n' text).map trimStr).filter (fun l => ¬l.isEmpty)
  match lines with
  | [] => none
  | firstLine :: _ =>
    if nameLineTest firstLine then some firstLine
    else
      match stripCI (str "name:") firstLine with
      | some r => if r.isEmpty then none else some (trimStr r)
      | none => none

def titleKeywords : List Str :=
  [ str "engineer", str "developer", str "manager", str "designer",
    str "analyst", str "consultant", str "specialist", str "lead",
    str "director", str "architect", str "administrator",
    str "coordinator", str "executive" ]

/-- extractJobTitle: scan up to three lines starting after the line that
contains the name for a title keyword, returning the original line. When
a nonempty name is given but no line contains it, the source keeps
startIndex at -1 and reads lines[-1].toLowerCase(), throwing a TypeError;
that path is unreachable when the name comes from extractName over the
same text (as in parseResumeText) and is modelled as no result. -/
def extractJobTitle (text : Str) (name : Option Str) : Option Str :=
  let lines := ((splitChar '\n' text).map trimStr).filter (fun l => ¬l.isEmpty)
  let startIndex : Option Nat :=
    match name with
    | some n =>
      if n.isEmpty then some 0
      else
        match lines.findIdx? (fun l => containsB (lowerStr n) (lowerStr l)) with
        | some i => some (i + 1)
        | none => none
    | none => some 0
  match startIndex with
  | some si =>
    ((lines.drop si).take 3).find? fun l =>
      titleKeywords.any fun kw => containsB kw (lowerStr l)
  | none => none

/-! ## parseSkills (section-detector source). -/

/-- /^(skills|technical|core|areas)/i. -/
def skillHeaderTest (item : Str) : Bool :=
  (stripCI (str "skills") item).isSome ∨
    (stripCI (str "technical") item).isSome ∨
    (stripCI (str "core") item).isSome ∨ (stripCI (str "areas") item).isSome

/-- parseSkills: try the six delimiters in order, keep the split yielding
strictly more valid items than the best so far, then deduplicate keeping
first occurrences. -/
def parseSkills (content : Str) : List Str :=
  let delims : List Char := [',', '|', '•', '·', '\n', ';']
  let skills := delims.foldl
    (fun skills d =>
      if containsB [d] content then
        let items :=
          ((splitChar d content).map trimStr).filter (fun l => ¬l.isEmpty)
        let valid := items.filter fun it =>
          decide (1 < it.length) && decide (it.length < 50) &&
            !skillHeaderTest it
        if skills.length < valid.length then valid else skills
      else skills)
    []
  skills.foldl pushUnique []

/-! ## The experience parser (content-parser source). -/

/-- Case-insensitive unanchored literal search. -/
def containsCI (needle hay : Str) : Bool :=
  (scanFirst (fun _ s => stripCI needle s) hay).isSome

/-- pre\s*post (case-insensitive) occurring anywhere. -/
def wsJoinTest (pre post : Str) (line : Str) : Bool :=
  (scanFirst
    (fun _ s =>
      match stripCI pre s with
      | some r =>
        match stripCI post (dropWs r) with
        | some r2 => some r2
        | none => none
      | none => none)
    line).isSome

/-- /^(professional\s*)?experience|work\s*history|employment/i: only the
first alternative is anchored. -/
def expHeaderTest (line : Str) : Bool :=
  (match stripCI (str "professional") line with
   | some r => (stripCI (str "experience") (dropWs r)).isSome
   | none => false) ||
  (stripCI (str "experience") line).isSome ||
  wsJoinTest (str "work") (str "history") line ||
  containsCI (str "employment") line

/-- The start alternation of the experience dateRangePattern:
(month-names|\d{1,2}\/\d{4}|\d{4}), remainders in alternation order (the
two numeric alternatives can never both match at one position). -/
def rangeStartRems (s : Str) : List Str :=
  monthRemainders s ++ (mmSlashYyyy s).toList ++
    (match takeDigitsN 4 s with
     | some (_, r) => [r]
     | none => [])

/-- The end alternation
(present|current|month-names|\d{1,2}\/\d{4}|\d{4}). -/
def rangeEndRems (s : Str) : List Str :=
  (stripCI (str "present") s).toList ++ (stripCI (str "current") s).toList ++
    monthRemainders s ++ (mmSlashYyyy s).toList ++
    (match takeDigitsN 4 s with
     | some (_, r) => [r]
     | none => [])

/-- Position matcher (length) for dateRangePattern
\b(start)\s*[-–—]\s*(end)\b of the experience parser. Every end
alternative ends in a word character, so the final \b holds iff the next
character is absent or not a word character. -/
def dateRangeAt (prev : Option Char) (s : Str) : Option Nat :=
  if atBoundary prev s.head? then
    match
      firstSome
        (fun r1 =>
          match dropWs r1 with
          | c :: r2 =>
            if isDashChar c then
              firstSome
                (fun rE =>
                  if atBoundary (some 'x') rE.head? then some rE else none)
                (rangeEndRems (dropWs r2))
            else none
          | [] => none)
        (rangeStartRems s) with
    | some rest => some (s.length - rest.length)
    | none => none
  else none

/-- line.match(dateRangePattern): index and length of the first match. -/
def dateRangeSearch (line : Str) : Option (Nat × Nat) :=
  searchFromAux dateRangeAt 0 none line

/-- String.split on a separator regex given as a position matcher
returning the match length (none of the separators used here can match
the empty string). -/
def splitByGo (f : Option Char → Str → Option Nat) :
    Nat → Option Char → Str → Str → List Str
  | 0, _, s, accRev => [accRev.reverse ++ s]
  | fuel + 1, prev, s, accRev =>
    match f prev s with
    | some len =>
      if len = 0 then [accRev.reverse ++ s]
      else
        accRev.reverse ::
          splitByGo f fuel ((s.take len).getLast?) (s.drop len) []
    | none =>
      match s with
      | [] => [accRev.reverse]
      | c :: r => splitByGo f fuel (some c) r (c :: accRev)

def splitBy (f : Option Char → Str → Option Nat) (s : Str) : List Str :=
  splitByGo f (s.length + 1) none s []

/-- Position matcher for /\s+at\s+|\s*[|,]\s*/i (position/company
separator); both branches are deterministic because each greedy run is
followed by an atom its characters cannot match. -/
def posCompanySepAt (_ : Option Char) (s : Str) : Option Nat :=
  let alt1 : Option Nat :=
    let (w1, r1) := takeRun isWsChar s
    if w1.isEmpty then none
    else
      match stripCI (str "at") r1 with
      | some r2 =>
        let (w2, r3) := takeRun isWsChar r2
        if w2.isEmpty then none else some (s.length - r3.length)
      | none => none
  match alt1 with
  | some len => some len
  | none =>
    let (w, r) := takeRun isWsChar s
    match r with
    | c :: r2 =>
      if c = '|' ∨ c = ',' then
        some (w.length + 1 + (takeRun isWsChar r2).1.length)
      else none
    | [] => none

/-- Position matcher for /\s*[-–—]\s*/ (date-range splitting). -/
def dashSepAt (_ : Option Char) (s : Str) : Option Nat :=
  let (w, r) := takeRun isWsChar s
  match r with
  | c :: r2 =>
    if isDashChar c then some (w.length + 1 + (takeRun isWsChar r2).1.length)
    else none
  | [] => none

/-- The bullet class [•\-*•] (• and • are the same
character). -/
def isBulletChar (c : Char) : Bool := c = '•' ∨ c = '-' ∨ c = '*'

/-- line.replace(/^[•\-*•]\s*/, ''). -/
def stripBullet (line : Str) : Str :=
  match line with
  | c :: r => if isBulletChar c then dropWs r else line
  | [] => line

/-- /^[•\-*•]\s*/.test (equivalently /^[•\-*•]/.test, and also
the conjunction of the three single-character startsWith checks used for
the company guard). -/
def bulletTest (line : Str) : Bool :=
  match line with
  | c :: _ => isBulletChar c
  | [] => false

/-- The company-keyword alternation of the experience parser
/\b(inc|llc|ltd|corp|company|technologies|solutions|group|services)\b/i
(a longer list than the confidence scorer's). -/
def expOrgWords : List Str :=
  [ str "inc", str "llc", str "ltd", str "corp", str "company",
    str "technologies", str "solutions", str "group", str "services" ]

structure ParsedExperience where
  company : Str
  position : Str
  startDate : Option Str := none
  endDate : Option Str := none
  current : Bool := false
  description : Str := []
  bullets : List Str := []
deriving DecidableEq, Repr

/-- The in-progress entry built at a date line. -/
structure PartialExp where
  position : Str
  company : Str
  startDate : Option Str
  endDate : Option Str
  current : Bool
deriving DecidableEq, Repr

def finalizeExperience (exp : PartialExp) (bullets : List Str) :
    ParsedExperience :=
  { company := if exp.company.isEmpty then str "Unknown Company" else exp.company
    position :=
      if exp.position.isEmpty then str "Unknown Position" else exp.position
    startDate := exp.startDate
    endDate := exp.endDate
    current := exp.current
    description := joinChar '\n' bullets
    bullets := bullets }

/-- The loop state of parseExperiences: the in-progress entry, the shared
bullets buffer (cleared only when an entry is pushed) and the output. -/
structure ExpLoopSt where
  currentExp : Option PartialExp
  bullets : List Str
  experiences : List ParsedExperience

/-- Save the in-progress entry when it has a company or a position; only
then is the bullets buffer cleared. -/
def expSaveCurrent (st : ExpLoopSt) : ExpLoopSt :=
  match st.currentExp with
  | some ce =>
    if ¬ce.company.isEmpty ∨ ¬ce.position.isEmpty then
      { st with
        experiences := st.experiences ++ [finalizeExperience ce st.bullets]
        bullets := [] }
    else st
  | none => st

/-- The date-line branch: split the matched range on the dash separator,
parse both parts, and take position/company from the text around the
match or from the previous line. -/
def expDateLine (line : Str) (idx len : Nat) (prevLine : Option Str)
    (isFirst : Bool) : PartialExp :=
  let dateStr := (line.drop idx).take len
  let pieces := splitBy dashSepAt dateStr
  let startPart := pieces.headD []
  let endPart := ((pieces.drop 1).headD [])
  let startDate := parseDate startPart
  let endDate := parseDate endPart
  let current :=
    containsCI (str "present") endPart ∨ containsCI (str "current") endPart
  let beforeDate := trimStr (line.take idx)
  let afterDate := trimStr (line.drop (idx + len))
  let pc : Str × Str :=
    if ¬beforeDate.isEmpty then
      let parts := splitBy posCompanySepAt beforeDate
      if 2 ≤ parts.length then
        (trimStr (parts.headD []), trimStr ((parts.drop 1).headD []))
      else (beforeDate, [])
    else ([], [])
  let company := if ¬afterDate.isEmpty ∧ pc.2.isEmpty then afterDate else pc.2
  let position :=
    if pc.1.isEmpty ∧ ¬isFirst then
      match prevLine with
      | some pl =>
        if ¬(dateRangeSearch pl).isSome ∧ ¬bulletTest pl then pl else pc.1
      | none => pc.1
    else pc.1
  { position := position, company := company, startDate := startDate,
    endDate := if current then some [] else endDate, current := current }

/-- The non-date-line branch with a current entry: company fill-in (which
skips the rest of the body), bullet push, or continuation append. -/
def expBodyLine (ce : PartialExp) (bullets : List Str) (line : Str) :
    PartialExp × List Str :=
  if ce.company.isEmpty ∧ ¬bulletTest line ∧ testWordAlt expOrgWords line then
    ({ ce with company := line }, bullets)
  else if bulletTest line then
    (ce, bullets ++ [stripBullet line])
  else if 10 < line.length then
    match bullets.getLast? with
    | some lastB => (ce, bullets.dropLast ++ [lastB ++ (' ' :: line)])
    | none => (ce, bullets ++ [line])
  else (ce, bullets)

def parseExpGo : List Str → Option Str → Bool → ExpLoopSt → ExpLoopSt
  | [], _, _, st => st
  | line :: rest, prevLine, isFirst, st =>
    match dateRangeSearch line with
    | some (idx, len) =>
      let st1 := expSaveCurrent st
      let ne := expDateLine line idx len prevLine isFirst
      parseExpGo rest (some line) false { st1 with currentExp := some ne }
    | none =>
      match st.currentExp with
      | some ce =>
        let p := expBodyLine ce st.bullets line
        parseExpGo rest (some line) false
          { st with currentExp := some p.1, bullets := p.2 }
      | none => parseExpGo rest (some line) false st

def parseExperiences (content : Str) : List ParsedExperience :=
  let lines := ((splitChar '\n' content).map trimStr).filter (fun l => ¬l.isEmpty)
  let startIndex := if expHeaderTest (lines.headD []) then 1 else 0
  let stEnd := parseExpGo (lines.drop startIndex) none true ⟨none, [], []⟩
  (expSaveCurrent stEnd).experiences

/-! ## The education parser (content-parser source). -/

/-- The apostrophe character, for the degree spellings. -/
def apoC : Char := Char.ofNat 39

/-- spelling + apostrophe + suffix. -/
def apoS (a b : String) : Str := str a ++ apoC :: str b

/-- The degreePattern alternation
(bachelor'?s?|master'?s?|ph\.?d\.?|mba|bs|ba|ms|ma|b\.?s\.?|b\.?a\.?|m\.?s\.?|m\.?a\.?|associate'?s?|diploma|certificate),
each alternative expanded to its greedy spelling order. -/
def degreeSpellings : List Str :=
  [ apoS "bachelor" "s", apoS "bachelor" "", str "bachelors", str "bachelor",
    apoS "master" "s", apoS "master" "", str "masters", str "master",
    str "ph.d.", str "ph.d", str "phd.", str "phd",
    str "mba", str "bs", str "ba", str "ms", str "ma",
    str "b.s.", str "b.s", str "bs.", str "bs",
    str "b.a.", str "b.a", str "ba.", str "ba",
    str "m.s.", str "m.s", str "ms.", str "ms",
    str "m.a.", str "m.a", str "ma.", str "ma",
    apoS "associate" "s", apoS "associate" "", str "associates",
    str "associate", str "diploma", str "certificate" ]

/-- Position matcher for degreePattern \b(...)\b/i with per-spelling
trailing-boundary checks (a spelling ending in '.' needs a word character
next, so the shorter spelling takes over). -/
def degreeAt (prev : Option Char) (s : Str) : Option Nat :=
  if atBoundary prev s.head? then
    match
      firstSome
        (fun sp =>
          match stripCI sp s with
          | some r =>
            if atBoundary sp.getLast? r.head? then some r else none
          | none => none)
        degreeSpellings with
    | some rest => some (s.length - rest.length)
    | none => none
  else none

def degreeSearch (line : Str) : Option (Nat × Nat) :=
  searchFromAux degreeAt 0 none line

/-- Greedy (\s+\w+)* (deterministic here: in both enclosing patterns
everything after the group can match the empty string, so the greedy
result is final); fuel bounds the iterations. -/
def wordSeqStarGo : Nat → Str → Str
  | 0, s => s
  | fuel + 1, s =>
    let (w, r) := takeRun isWsChar s
    if w.isEmpty then s
    else
      let p := takeRun isWordChar r
      if p.1.isEmpty then s else wordSeqStarGo fuel p.2

/-- The degree alternation of the full-degree pattern (no dotted
b.s.-style alternatives, no diploma/certificate). -/
def fdSpellings : List Str :=
  [ apoS "bachelor" "s", apoS "bachelor" "", str "bachelors", str "bachelor",
    apoS "master" "s", apoS "master" "", str "masters", str "master",
    str "ph.d.", str "ph.d", str "phd.", str "phd",
    str "mba", str "bs", str "ba", str "ms", str "ma",
    apoS "associate" "s", apoS "associate" "", str "associates",
    str "associate" ]

/-- Position matcher for the full-degree pattern
\b(degrees)\s+(of|in)?\s*(\w+(\s+\w+)*)\s*(in\s+(\w+(\s+\w+)*))?/i,
returning the captures (group 1, group 3, optional group 6) as slices of
the input. Group 3 greedily swallows any following "in ..." words, so
group 6 can only match when group 3 is followed by whitespace and "in"
without a completed word - which the greedy group 3 precludes; the branch
is still embedded. -/
def fdmAt (prev : Option Char) (s : Str) : Option (Str × Str × Option Str) :=
  if atBoundary prev s.head? then
    firstSome
      (fun sp =>
        match stripCI sp s with
        | some r1 =>
          let g1 := s.take sp.length
          let (ws1, r2) := takeRun isWsChar r1
          if ws1.isEmpty then none
          else
            firstSome
              (fun r3 =>
                let r4 := dropWs r3
                let p1 := takeRun isWordChar r4
                if p1.1.isEmpty then none
                else
                  let r6 := wordSeqStarGo p1.2.length p1.2
                  let g3 := r4.take (r4.length - r6.length)
                  let r7 := dropWs r6
                  let g6 : Option Str :=
                    match stripCI (str "in") r7 with
                    | some r8 =>
                      let (ws2, r9) := takeRun isWsChar r8
                      if ws2.isEmpty then none
                      else
                        let p2 := takeRun isWordChar r9
                        if p2.1.isEmpty then none
                        else
                          let r11 := wordSeqStarGo p2.2.length p2.2
                          some (r9.take (r9.length - r11.length))
                    | none => none
                  some (g1, g3, g6))
              ((stripCI (str "of") r2).toList ++
                (stripCI (str "in") r2).toList ++ [r2])
        | none => none)
      fdSpellings
  else none

/-- /\s+in\s+(\w+(\s+\w+)*)/i search over the text after the degree,
returning the capture. -/
def fieldMatchSearch (s : Str) : Option Str :=
  scanFirst
    (fun _ t =>
      let (w1, r1) := takeRun isWsChar t
      if w1.isEmpty then none
      else
        match stripCI (str "in") r1 with
        | some r2 =>
          let (w2, r3) := takeRun isWsChar r2
          if w2.isEmpty then none
          else
            let p := takeRun isWordChar r3
            if p.1.isEmpty then none
            else
              let r5 := wordSeqStarGo p.2.length p.2
              some (r3.take (r3.length - r5.length))
        | none => none)
    s

/-- line.replace(/\d{4}/, ''): remove the leftmost run of four digits. -/
def removeFourDigits (line : Str) : Str :=
  match searchFromAux (fun _ t => (takeDigitsN 4 t).map fun _ => 4) 0 none
      line with
  | some (i, _) => line.take i ++ line.drop (i + 4)
  | none => line

/-- /\b(19|20)\d{2}\b/ at a position, returning the four matched
digits. -/
def year19At (prev : Option Char) (s : Str) : Option Str :=
  if atBoundary prev s.head? then
    match takeDigitsN 4 s with
    | some (d, r) =>
      if (startsWithB (str "19") d ∨ startsWithB (str "20") d) ∧
          atBoundary (some '0') r.head? then some d
      else none
    | none => none
  else none

def year19Search (s : Str) : Option Str := scanFirst year19At s

/-- The institution-keyword alternation
/\b(university|college|institute|school|academy)\b/i of the education
parser (distinct from the confidence scorer's keyword list). -/
def eduInstWords : List Str :=
  [ str "university", str "college", str "institute", str "school",
    str "academy" ]

structure ParsedEducation where
  institution : Str
  degree : Str
  field : Option Str := none
  startDate : Option Str := none
  endDate : Option Str := none
  description : Option Str := none
deriving DecidableEq, Repr

structure PartialEdu where
  degree : Str
  field : Str
  institution : Str
  endDate : Option Str
  description : Str
deriving DecidableEq, Repr

def finalizeEducation (edu : PartialEdu) : ParsedEducation :=
  { institution :=
      if edu.institution.isEmpty then str "Unknown Institution"
      else edu.institution
    degree := if edu.degree.isEmpty then str "Degree" else edu.degree
    field := some edu.field
    startDate := none
    endDate := edu.endDate
    description := some edu.description }

/-- The degree-line branch: prefer the full-degree captures ("X of G3",
field G6 or G3), else the bare degree keyword with an "in ..." field
search after it. -/
def eduDegreeLine (line : Str) (idx len : Nat) : PartialEdu :=
  let pair : Str × Str :=
    match scanFirst fdmAt line with
    | some (g1, g3, g6) =>
      (g1 ++ (if ¬g3.isEmpty then str " of " ++ g3 else []),
       match g6 with
       | some f => f
       | none => g3)
    | none =>
      let degree := (line.drop idx).take len
      let field :=
        match fieldMatchSearch (line.drop (idx + len)) with
        | some f => f
        | none => []
      (degree, field)
  { degree := trimStr pair.1, field := trimStr pair.2, institution := [],
    endDate := none, description := [] }

def parseEduGo : List Str → Option PartialEdu → List ParsedEducation →
    List ParsedEducation × Option PartialEdu
  | [], cur, acc => (acc, cur)
  | line :: rest, cur, acc =>
    match degreeSearch line with
    | some (idx, len) =>
      let acc2 :=
        match cur with
        | some ce =>
          if ¬ce.institution.isEmpty then acc ++ [finalizeEducation ce]
          else acc
        | none => acc
      parseEduGo rest (some (eduDegreeLine line idx len)) acc2
    | none =>
      match cur with
      | some ce =>
        if ce.institution.isEmpty ∧ testWordAlt eduInstWords line then
          let ce2 := { ce with
            institution := trimStr (removeFourDigits line)
            endDate :=
              match yearSearch line with
              | some y => some (y ++ str "-05")
              | none => ce.endDate }
          parseEduGo rest (some ce2) acc
        else if ce.endDate.isNone then
          match year19Search line with
          | some y =>
            parseEduGo rest (some { ce with endDate := some (y ++ str "-05") })
              acc
          | none => parseEduGo rest cur acc
        else parseEduGo rest cur acc
      | none => parseEduGo rest cur acc

/-- /^education|academic|qualifications/i: only the first alternative is
anchored. -/
def eduHeaderTest (line : Str) : Bool :=
  (stripCI (str "education") line).isSome ∨
    containsCI (str "academic") line ∨
    containsCI (str "qualifications") line

def parseEducation (content : Str) : List ParsedEducation :=
  let lines := ((splitChar '\n' content).map trimStr).filter (fun l => ¬l.isEmpty)
  let startIndex := if eduHeaderTest (lines.headD []) then 1 else 0
  let p := parseEduGo (lines.drop startIndex) none []
  match p.2 with
  | some ce =>
    if ¬ce.institution.isEmpty ∨ ¬ce.degree.isEmpty then
      p.1 ++ [finalizeEducation ce]
    else p.1
  | none => p.1

/-! ## The projects parser (content-parser source). -/

/-- Position matcher for the content-parser URL pattern
/https?:\/\/[^\s]+/i (any non-whitespace run, unlike the detector's
URL_PATTERN). -/
def projUrlAt (_ : Option Char) (s : Str) : Option Nat :=
  let tail : Str → Option Str := fun r =>
    match stripCI (str "://") r with
    | some r2 =>
      let (run, rest) := takeRun (fun c => ¬isWsChar c) r2
      if run.isEmpty then none else some rest
    | none => none
  match stripCI (str "http") s with
  | none => none
  | some r1 =>
    let res :=
      match stripCI (str "s") r1 with
      | some r1s =>
        match tail r1s with
        | some rest => some rest
        | none => tail r1
      | none => tail r1
    match res with
    | some rest => some (s.length - rest.length)
    | none => none

def projUrlSearch (line : Str) : Option (Nat × Nat) :=
  searchFromAux projUrlAt 0 none line

/-- String.split on a character class. -/
def splitCharSet (f : Char → Bool) : Str → List Str
  | [] => [[]]
  | c :: r =>
    if f c then [] :: splitCharSet f r
    else
      match splitCharSet f r with
      | piece :: rest => (c :: piece) :: rest
      | [] => [[c]]

def techLabelWords : List Str :=
  [ str "built with", str "technologies", str "tech stack", str "using" ]

/-- /\b(built with|technologies|tech stack|using):/i test. -/
def techLabelTest (s : Str) : Bool :=
  (scanFirst
    (fun prev t =>
      if atBoundary prev t.head? then
        firstSome
          (fun w =>
            match stripCI w t with
            | some r =>
              match r with
              | ':' :: rr => some rr
              | _ => none
            | none => none)
          techLabelWords
      else none)
    s).isSome

structure ParsedProject where
  name : Str
  role : Option Str := none
  url : Option Str := none
  startDate : Option Str := none
  endDate : Option Str := none
  description : Str := []
  technologies : Option (List Str) := none
deriving DecidableEq, Repr

structure PartialProj where
  name : Str
  url : Option Str
  technologies : Option (List Str)
deriving DecidableEq, Repr

def finalizeProject (p : PartialProj) (desc : List Str) : ParsedProject :=
  { name := p.name, url := p.url, technologies := p.technologies,
    description := joinChar '\n' desc }

/-- A project title line: remove the first URL match from the name (the
regex's leftmost match is also the string's first occurrence). -/
def projTitleLine (line : Str) : PartialProj :=
  match projUrlSearch line with
  | some (idx, len) =>
    { name := trimStr (line.take idx ++ line.drop (idx + len))
      url := some ((line.drop idx).take len)
      technologies := none }
  | none => { name := line, url := none, technologies := none }

/-- A project body line: URL fill-in, bullet strip into the description,
and the technologies split after a label. -/
def projBodyLine (p : PartialProj) (desc : List Str) (line : Str) :
    PartialProj × List Str :=
  let p1 :=
    match projUrlSearch line with
    | some (idx, len) =>
      if p.url.isNone then { p with url := some ((line.drop idx).take len) }
      else p
    | none => p
  let cleanLine := stripBullet line
  let desc2 := if ¬cleanLine.isEmpty then desc ++ [cleanLine] else desc
  let p2 :=
    if techLabelTest cleanLine then
      match ((splitChar ':' cleanLine).drop 1).head? with
      | some techPart =>
        let ts := ((splitCharSet (fun c => c = ',' ∨ c = '|') techPart).map
          trimStr).filter (fun t => ¬t.isEmpty)
        { p1 with technologies := some ts }
      | none => p1
    else p1
  (p2, desc2)

/-- The title-line guard: no leading • or - (a leading * is allowed here,
unlike the experience parser) and fewer than 100 characters. -/
def projTitleCond (line : Str) : Bool :=
  (match line.head? with
   | some c => ¬(c = '•' ∨ c = '-')
   | none => true) && decide (line.length < 100)

def parseProjGo : List Str → Bool → Option PartialProj → List Str →
    List ParsedProject → List ParsedProject × Option PartialProj × List Str
  | [], _, cur, desc, acc => (acc, cur, desc)
  | line :: rest, isFirst, cur, desc, acc =>
    if projTitleCond line then
      if isFirst ∨ (cur.isSome ∧ ¬desc.isEmpty) then
        let save : List ParsedProject × List Str :=
          match cur with
          | some p =>
            if ¬p.name.isEmpty then (acc ++ [finalizeProject p desc], [])
            else (acc, desc)
          | none => (acc, desc)
        parseProjGo rest false (some (projTitleLine line)) save.2 save.1
      else parseProjGo rest false cur desc acc
    else
      match cur with
      | some p =>
        let q := projBodyLine p desc line
        parseProjGo rest false (some q.1) q.2 acc
      | none => parseProjGo rest false cur desc acc

/-- /^projects?|portfolio/i: only the first alternative is anchored. -/
def projHeaderTest (line : Str) : Bool :=
  (stripCI (str "project") line).isSome ∨ containsCI (str "portfolio") line

def parseProjects (content : Str) : List ParsedProject :=
  let lines := ((splitChar '\n' content).map trimStr).filter (fun l => ¬l.isEmpty)
  let startIndex := if projHeaderTest (lines.headD []) then 1 else 0
  let p := parseProjGo (lines.drop startIndex) true none [] []
  match p.2.1 with
  | some pr =>
    if ¬pr.name.isEmpty then p.1 ++ [finalizeProject pr p.2.2] else p.1
  | none => p.1

/-! ## The certifications parser (content-parser source). -/

structure ParsedCertification where
  name : Str
  issuer : Str
  issueDate : Option Str := none
  expiryDate : Option Str := none
  credentialId : Option Str := none
  credentialUrl : Option Str := none
deriving DecidableEq, Repr

/-- Issuer pattern /\s*[-–—]\s*(.+)$/ at a position: a whitespace run, a
dash, and at least one character after it; the capture is used trimmed, so
greedy-versus-backtracked \s* placement is invisible. -/
def certP1At (_ : Option Char) (s : Str) : Option Str :=
  let (_, r) := takeRun isWsChar s
  match r with
  | c :: r2 =>
    if isDashChar c ∧ ¬r2.isEmpty then some (trimStr r2) else none
  | [] => none

/-- The (.+)\)\s*$ tail of the parenthesis issuer pattern: the capture
runs to the last ')' that is followed only by whitespace and must be
nonempty. -/
def certParenTail (r2 : Str) : Option Str :=
  match dropWs r2.reverse with
  | c :: contentRev =>
    if c = ')' ∧ ¬contentRev.isEmpty then some contentRev.reverse else none
  | [] => none

/-- Issuer pattern /\s*\((.+)\)\s*$/ at a position. -/
def certP2At (_ : Option Char) (s : Str) : Option Str :=
  let (_, r) := takeRun isWsChar s
  match r with
  | '(' :: r2 => (certParenTail r2).map trimStr
  | _ => none

/-- \s+word\s+(.+)$ at a position (issuer patterns 3 and 4): when nothing
follows the second whitespace run, the run itself can still feed (.+) if
it has at least two characters, leaving an all-whitespace capture that
trims to empty. -/
def certByFromAt (word : Str) (s : Str) : Option Str :=
  let (w1, r1) := takeRun isWsChar s
  if w1.isEmpty then none
  else
    match stripCI word r1 with
    | some r2 =>
      let (w2, r3) := takeRun isWsChar r2
      if w2.isEmpty then none
      else if ¬r3.isEmpty then some (trimStr r3)
      else if 2 ≤ w2.length then some []
      else none
    | none => none

/-- Leftmost-match scan reporting the match position together with the
matcher's output. -/
def scanIdxGo (f : Option Char → Str → Option α) :
    Nat → Option Char → Str → Option (Nat × α)
  | idx, prev, s =>
    match f prev s with
    | some x => some (idx, x)
    | none =>
      match s with
      | [] => none
      | c :: r => scanIdxGo f (idx + 1) (some c) r

def scanIdx (f : Option Char → Str → Option α) (s : Str) : Option (Nat × α) :=
  scanIdxGo f 0 none s

/-- The four issuer patterns in order; on the first match the name is the
trimmed text before the match and the issuer the trimmed capture. -/
def certIssuerSplit (line : Str) : Str × Option Str :=
  match scanIdx certP1At line with
  | some (i, issuer) => (trimStr (line.take i), some issuer)
  | none =>
    match scanIdx certP2At line with
    | some (i, issuer) => (trimStr (line.take i), some issuer)
    | none =>
      match scanIdx (fun _ s => certByFromAt (str "by") s) line with
      | some (i, issuer) => (trimStr (line.take i), some issuer)
      | none =>
        match scanIdx (fun _ s => certByFromAt (str "from") s) line with
        | some (i, issuer) => (trimStr (line.take i), some issuer)
        | none => (line, none)

/-- The certification date pattern \b(month)\s*\d{4}|\b\d{4}\b/i: length
of the leftmost match (the \b of the second alternative is its own). -/
def certDateAt (prev : Option Char) (s : Str) : Option Nat :=
  let alt1 : Option Nat :=
    if atBoundary prev s.head? then
      match
        firstSome
          (fun r1 =>
            match takeDigitsN 4 (dropWs r1) with
            | some (_, r2) => some r2
            | none => none)
          (monthRemainders s) with
      | some rest => some (s.length - rest.length)
      | none => none
    else none
  match alt1 with
  | some len => some len
  | none =>
    if atBoundary prev s.head? then
      match takeDigitsN 4 s with
      | some (_, r) =>
        if atBoundary (some '0') r.head? then some 4 else none
      | none => none
    else none

/-- The credential id class [A-Z0-9-] under /i. -/
def credChar (c : Char) : Bool := isAlphaChar c ∨ isDigitChar c ∨ c = '-'

/-- /\b(credential|id|#)\s*:?\s*([A-Z0-9-]+)/i: capture group 2. The \b
compares the previous character with the character at the position, so
the '#' alternative needs a word character before it. -/
def credentialAt (prev : Option Char) (s : Str) : Option Str :=
  if atBoundary prev s.head? then
    firstSome
      (fun w =>
        match stripCI w s with
        | some r =>
          let r2 := dropWs r
          let r3 :=
            match r2 with
            | ':' :: rr => dropWs rr
            | _ => r2
          let (run, _) := takeRun credChar r3
          if run.isEmpty then none else some run
        | none => none)
      [str "credential", str "id", ['#']]
  else none

/-- One certification line: bullet strip, the under-5-characters skip,
issuer split, date, credential id and URL. -/
def certLine (line0 : Str) (acc : List ParsedCertification) :
    List ParsedCertification :=
  let line := stripBullet line0
  if line.length < 5 then acc
  else
    let ni := certIssuerSplit line
    let issueDate :=
      match searchFromAux certDateAt 0 none line with
      | some (i, len) => parseDate ((line.drop i).take len)
      | none => none
    let credentialId := scanFirst credentialAt line
    let credentialUrl :=
      match projUrlSearch line with
      | some (i, len) => some ((line.drop i).take len)
      | none => none
    if ni.1.isEmpty then acc
    else
      acc ++ [{ name := ni.1
                issuer :=
                  match ni.2 with
                  | some iss => if iss.isEmpty then str "Unknown Issuer" else iss
                  | none => str "Unknown Issuer"
                issueDate := issueDate
                expiryDate := none
                credentialId := credentialId
                credentialUrl := credentialUrl }]

/-- /^certifications?|licenses?|credentials?/i: only the first alternative
is anchored. -/
def certHeaderTest (line : Str) : Bool :=
  (stripCI (str "certification") line).isSome ∨
    containsCI (str "license") line ∨ containsCI (str "credential") line

def parseCertifications (content : Str) : List ParsedCertification :=
  let lines := ((splitChar '\n' content).map trimStr).filter (fun l => ¬l.isEmpty)
  let startIndex := if certHeaderTest (lines.headD []) then 1 else 0
  (lines.drop startIndex).foldl (fun acc l => certLine l acc) []

/-! ## parseResumeText and parseResumeFile (resume-parser/index.ts). -/

inductive ParseSource where
  | pdf | docx | text
deriving DecidableEq, Repr

structure ParseInfo where
  source : ParseSource
  fileName : Str
  parseDate : Str
  confidence : Nat
  warnings : List Str
deriving DecidableEq, Repr

structure ParsedResume where
  fullName : Option Str
  jobTitle : Option Str
  contact : ContactInfo
  summary : Option Str
  experiences : List ParsedExperience
  education : List ParsedEducation
  skills : List Str
  projects : List ParsedProject
  certifications : List ParsedCertification
  rawText : Str
  parseInfo : ParseInfo
deriving DecidableEq, Repr

/-- JavaScript truthiness of a string-or-undefined value. -/
def optTruthy : Option Str → Bool
  | some s => ¬s.isEmpty
  | none => false

/-- section.content.split('\n').slice(1).join('\n').trim(). -/
def summaryOfContent (content : Str) : Str :=
  trimStr (joinChar '\n' ((splitChar '\n' content).drop 1))

/-- The per-section accumulator of the switch in parseResumeText; a later
section of the same type overwrites the earlier result. -/
structure SectionAcc where
  summary : Option Str
  experiences : List ParsedExperience
  education : List ParsedEducation
  skills : List Str
  projects : List ParsedProject
  certifications : List ParsedCertification

/-- parseResumeText: section detection (with the module g-regex state
threaded in and out), name/title/contact extraction from the first 500
characters, per-section content parsing, the 50+10+5+10+15+10 confidence
formula capped at 100, and the four appended warnings. `now` stands for
new Date().toISOString(). -/
def parseResumeText (rawText : Str) (source : ParseSource) (fileName : Str)
    (warnings : List Str) (st : RegexSt) (now : Str) :
    ParsedResume × RegexSt :=
  let dres := detectSections st rawText
  let headerText := rawText.take (min 500 rawText.length)
  let fullName := extractName headerText
  let jobTitle := extractJobTitle headerText fullName
  let contact := extractContactInfo headerText
  let acc := dres.1.foldl
    (fun acc sec =>
      match sec.type with
      | SectionType.summary =>
        { acc with summary := some (summaryOfContent sec.content) }
      | SectionType.experience =>
        { acc with experiences := parseExperiences sec.content }
      | SectionType.education =>
        { acc with education := parseEducation sec.content }
      | SectionType.skills => { acc with skills := parseSkills sec.content }
      | SectionType.projects =>
        { acc with projects := parseProjects sec.content }
      | SectionType.certifications =>
        { acc with certifications := parseCertifications sec.content }
      | _ => acc)
    (⟨none, [], [], [], [], []⟩ : SectionAcc)
  let confidence : Nat :=
    50 + (if optTruthy fullName then 10 else 0) +
      (if optTruthy jobTitle then 5 else 0) +
      (if optTruthy contact.email then 10 else 0) +
      (if acc.experiences.length > 0 then 15 else 0) +
      (if acc.education.length > 0 then 10 else 0)
  let warnings2 :=
    warnings ++
      (if ¬optTruthy fullName then
        [str "Could not detect name. Please verify personal information."]
      else []) ++
      (if ¬optTruthy contact.email then [str "No email address found."]
      else []) ++
      (if acc.experiences.isEmpty then
        [str "No work experience detected. Check section headers."]
      else []) ++
      (if acc.skills.isEmpty then [str "No skills section detected."] else [])
  ({ fullName := fullName, jobTitle := jobTitle, contact := contact,
     summary := acc.summary, experiences := acc.experiences,
     education := acc.education, skills := acc.skills,
     projects := acc.projects, certifications := acc.certifications,
     rawText := rawText,
     parseInfo := { source := source, fileName := fileName, parseDate := now,
                    confidence := min confidence 100,
                    warnings := warnings2 } },
   dres.2)

/-- The file metadata consulted by the format predicates. -/
structure FileMeta where
  name : Str
  mime : Str
deriving DecidableEq, Repr

/-- isPDF (pdf-parser source). -/
def isPDF (f : FileMeta) : Bool :=
  f.mime = str "application/pdf" ∨ endsWithB (str ".pdf") (lowerStr f.name)

/-- isDOCX (docx-parser source). -/
def isDOCX (f : FileMeta) : Bool :=
  f.mime =
      str "application/vnd.openxmlformats-officedocument.wordprocessingml.document" ∨
    endsWithB (str ".docx") (lowerStr f.name)

/-- isLegacyDOC (docx-parser source). -/
def isLegacyDOC (f : FileMeta) : Bool :=
  f.mime = str "application/msword" ∨ endsWithB (str ".doc") (lowerStr f.name)

inductive ImportResult where
  | success (data : ParsedResume)
  | failure (error : Str)
deriving DecidableEq, Repr

def legacyDocError : Str :=
  str "Legacy .doc format is not supported. Please convert to .docx or .pdf"

def unsupportedFormatError : Str :=
  str "Unsupported file format. Please upload a PDF or DOCX file."

def emptyContentError : Str :=
  str "Could not extract text from file. The file may be empty, corrupted, or image-based."

def pagesWarning : Str :=
  str "Resume has more than 3 pages. Consider condensing to 1-2 pages for ATS."

/-- parseResumeFile (resume-parser/index.ts): the orchestrator as a
function of the file metadata and of the outcomes of the two extractors
(text and page count for the PDF one, text and messages for the DOCX
one); a .error value models an extractor exception reaching the
catch-all, which reports the exception's message. The legacy and
unsupported checks precede any use of the extractor outcomes, and the
empty-content check precedes parseResumeText. An absent rawText
(!rawText) is subsumed by the under-50 trim check. -/
def parseResumeFile (f : FileMeta) (pdfExtract : Except Str (Str × Nat))
    (docxExtract : Except Str (Str × List Str)) (st : RegexSt) (now : Str) :
    ImportResult :=
  if isLegacyDOC f then .failure legacyDocError
  else if ¬isPDF f ∧ ¬isDOCX f then .failure unsupportedFormatError
  else
    let ext : Except Str (Str × ParseSource × List Str) :=
      if isPDF f then
        pdfExtract.map fun p =>
          (p.1, ParseSource.pdf, if 3 < p.2 then [pagesWarning] else [])
      else docxExtract.map fun p => (p.1, ParseSource.docx, p.2)
    match ext with
    | .error e => .failure e
    | .ok (rawText, source, warns) =>
      if (trimStr rawText).length < 50 then .failure emptyContentError
      else .success (parseResumeText rawText source f.name warns st now).1

/-- The raw text of the end-to-end scenario. -/
def janeText : Str :=
  str "Jane Doe\nSoftware Engineer\njane@example.com\n\nEXPERIENCE\nSenior Engineer at Acme Inc | Jan 2020 - Present\n- Led migration reducing latency by 40%\n\nEDUCATION\nBachelor of Science in Computer Science\nState University 2016\n\nSKILLS\nPython, Go, SQL"

/-- The scenario parse from fresh module state. -/
def janeParsed : ParsedResume :=
  (parseResumeText janeText ParseSource.text (str "resume.txt") [] initRegexSt
    (str "2026-01-01T00:00:00.000Z")).1

/-- The empty resume (C3 witness input). -/
def emptyResume : ExtendedResumeData :=
  ⟨⟨[], [], [], [], [], []⟩, [], [], [], [], [], [], [], []⟩

/-- A text exhibiting the hidden regex state: an EXPERIENCE section
containing exactly one year range. -/
def textC6 : Str := str "EXPERIENCE\n2020 - 2023\nfoo"

theorem takeDigitsN_spec : ∀ (n : Nat) (s d r : Str),
    takeDigitsN n s = some (d, r) → d.length = n ∧ d.all isDigitChar := by
  intro n
  induction n with
  | zero => intro s d r h; simp [takeDigitsN] at h; simp [h.1]
  | succ m ih =>
    intro s d r h
    match s with
    | [] => simp [takeDigitsN] at h
    | c :: t =>
      simp only [takeDigitsN] at h
      by_cases hc : isDigitChar c = true
      · simp only [hc, if_pos] at h
        match hrec : takeDigitsN m t with
        | some (d0, r0) =>
          rw [hrec] at h
          simp only [Option.some.injEq, Prod.mk.injEq] at h
          obtain ⟨hd, _⟩ := h
          obtain ⟨hl, ha⟩ := ih t d0 r0 hrec
          subst hd
          simp [List.all_cons, hc, ha, hl]
        | none => rw [hrec] at h; simp at h
      · simp only [hc] at h; simp at h

theorem trySpellingsTagged_spec {α : Type} (k : Str → Option α) :
    ∀ (sps : List Str) (s : Str) (sp : Str) (x : α),
    tryMonthGroups.trySpellingsTagged k sps s = some (sp, x) →
    sp ∈ sps ∧ ∃ rest, k rest = some x := by
  intro sps
  induction sps with
  | nil => intro s sp x h; simp [tryMonthGroups.trySpellingsTagged] at h
  | cons a as ih =>
    intro s sp x h
    simp only [tryMonthGroups.trySpellingsTagged] at h
    split at h
    · rename_i rest hst
      split at h
      · rename_i v hk
        simp only [Option.some.injEq, Prod.mk.injEq] at h
        obtain ⟨h1, h2⟩ := h
        subst h1; subst h2
        exact ⟨List.mem_cons_self a as, rest, hk⟩
      · rename_i hk
        obtain ⟨hm, hr⟩ := ih s sp x h
        exact ⟨List.mem_cons_of_mem a hm, hr⟩
    · rename_i hst
      obtain ⟨hm, hr⟩ := ih s sp x h
      exact ⟨List.mem_cons_of_mem a hm, hr⟩

theorem tryMonthGroups_spec {α : Type} (k : Str → Option α) :
    ∀ (gs : List (List Str)) (s : Str) (sp : Str) (x : α),
    tryMonthGroups k gs s = some (sp, x) →
    sp ∈ gs.flatten ∧ ∃ rest, k rest = some x := by
  intro gs
  induction gs with
  | nil => intro s sp x h; simp [tryMonthGroups] at h
  | cons g tail ih =>
    intro s sp x h
    simp only [tryMonthGroups] at h
    split at h
    · rename_i v hg
      simp only [Option.some.injEq] at h
      subst h
      obtain ⟨hm, hr⟩ := trySpellingsTagged_spec k g s sp x hg
      refine ⟨?_, hr⟩
      simp only [List.flatten_cons, List.mem_append]
      exact Or.inl hm
    · rename_i hg
      obtain ⟨hm, hr⟩ := ih s sp x h
      refine ⟨?_, hr⟩
      simp only [List.flatten_cons, List.mem_append]
      exact Or.inr hm

theorem scanPos_spec {α : Type} (f : Option Char → Str → Option α) :
    ∀ (s : Str) (prev : Option Char) (x : α), scanPos f prev s = some x →
    ∃ p t, f p t = some x := by
  intro s
  induction s with
  | nil => intro prev x h; exact ⟨prev, [], h⟩
  | cons c r ih =>
    intro prev x h
    simp only [scanPos] at h
    split at h
    · rename_i v hf
      simp only [Option.some.injEq] at h
      subst h
      exact ⟨prev, c :: r, hf⟩
    · exact ih (some c) x h

theorem scanFirst_spec {α : Type} (f : Option Char → Str → Option α)
    (s : Str) (x : α) (h : scanFirst f s = some x) :
    ∃ p t, f p t = some x :=
  scanPos_spec f s none x h

theorem dateShape_build (y m : Str) (hy4 : y.length = 4)
    (hyd : y.all isDigitChar) (hm2 : m.length = 2) (hmd : m.all isDigitChar) :
    dateShape (y ++ '-' :: m) = true := by
  match y, m with
  | [a, b, c, d], [f, g] =>
    simp [List.all_cons] at hyd hmd
    simp [dateShape, hyd.1, hyd.2.1, hyd.2.2.1, hyd.2.2.2, hmd.1, hmd.2]
  | [], _ => simp at hy4
  | [_], _ => simp at hy4
  | [_, _], _ => simp at hy4
  | [_, _, _], _ => simp at hy4
  | _ :: _ :: _ :: _ :: _ :: _, _ => simp at hy4
  | [_, _, _, _], [] => simp at hm2
  | [_, _, _, _], [_] => simp at hm2
  | [_, _, _, _], _ :: _ :: _ :: _ => simp at hm2

/-- Every month-name spelling maps to a two-digit code. -/
theorem monthMap_shape : ∀ sp ∈ allMonthSpellings,
    (monthMap (sp.take 3)).length = 2 ∧
      (monthMap (sp.take 3)).all isDigitChar = true := by decide

theorem monthYearAt_spec (s : Str) (sp y : Str)
    (h : monthYearAt s = some (sp, y)) :
    sp ∈ allMonthSpellings ∧ y.length = 4 ∧ y.all isDigitChar = true := by
  obtain ⟨hm, rest, hk⟩ := tryMonthGroups_spec _ _ s sp y h
  refine ⟨hm, ?_⟩
  split at hk
  · rename_i d r ht
    simp only [Option.some.injEq] at hk
    subst hk
    exact takeDigitsN_spec 4 _ _ r ht
  · simp at hk

theorem yearAt_spec (p : Option Char) (s y : Str) (h : yearAt p s = some y) :
    y.length = 4 ∧ y.all isDigitChar = true := by
  simp only [yearAt] at h
  by_cases hb : atBoundary p s.head? = true
  · simp only [hb, if_pos] at h
    split at h
    · rename_i d r ht
      split at h
      · simp only [Option.some.injEq] at h
        subst h
        exact takeDigitsN_spec 4 s _ r ht
      · simp at h
    · simp at h
  · simp only [hb] at h; simp at h

theorem slashYear_spec (rest y : Str) (h : slashYear rest = some y) :
    y.length = 4 ∧ y.all isDigitChar = true := by
  match rest with
  | [] => simp [slashYear] at h
  | c :: r2 =>
    simp only [slashYear] at h
    by_cases hc : c = '/'
    · simp only [hc, if_pos] at h
      split at h
      · rename_i d r ht
        simp only [Option.some.injEq] at h
        subst h
        exact takeDigitsN_spec 4 r2 _ r ht
      · simp at h
    · simp only [hc] at h; simp at h

theorem mmYyyyAtOne_spec (s : Str) (mm y : Str)
    (h : mmYyyyAtOne s = some (mm, y)) :
    (mm.length = 1 ∨ mm.length = 2) ∧ mm.all isDigitChar = true ∧
      y.length = 4 ∧ y.all isDigitChar = true := by
  simp only [mmYyyyAtOne] at h
  split at h
  · rename_i m1 rest1 ht1
    split at h
    · rename_i yy hs1
      simp only [Option.some.injEq, Prod.mk.injEq] at h
      obtain ⟨h1, h2⟩ := h
      subst h1; subst h2
      obtain ⟨hl, hd⟩ := takeDigitsN_spec 1 s _ rest1 ht1
      exact ⟨Or.inl hl, hd, slashYear_spec rest1 _ hs1⟩
    · simp at h
  · simp at h

theorem mmYyyyAt_spec (s : Str) (mm y : Str)
    (h : mmYyyyAt s = some (mm, y)) :
    (mm.length = 1 ∨ mm.length = 2) ∧ mm.all isDigitChar = true ∧
      y.length = 4 ∧ y.all isDigitChar = true := by
  simp only [mmYyyyAt] at h
  split at h
  · rename_i m2 rest2 ht2
    split at h
    · rename_i yy hs2
      simp only [Option.some.injEq, Prod.mk.injEq] at h
      obtain ⟨h1, h2⟩ := h
      subst h1; subst h2
      obtain ⟨hl, hd⟩ := takeDigitsN_spec 2 s _ rest2 ht2
      exact ⟨Or.inr hl, hd, slashYear_spec rest2 _ hs2⟩
    · exact mmYyyyAtOne_spec s mm y h
  · exact mmYyyyAtOne_spec s mm y h

theorem padStart2_shape (m : Str) (hl : m.length = 1 ∨ m.length = 2)
    (hd : m.all isDigitChar = true) :
    (padStart2 m).length = 2 ∧ (padStart2 m).all isDigitChar = true := by
  match m with
  | [a] =>
    simp only [List.all_cons, List.all_nil, Bool.and_eq_true, and_true] at hd
    refine ⟨rfl, ?_⟩
    simp [padStart2, hd]
    decide
  | [a, b] => exact ⟨rfl, by simpa [padStart2] using hd⟩
  | [] => simp at hl
  | _ :: _ :: _ :: _ => simp at hl

/-- C10 (amended): for every input string, parseDate returns either none or
a string of shape \d{4}-\d{2} (four digits, a dash, two zero-padded
digits).  The claimed stronger bound that the month component always lies
in 01..12 is false: the MM/YYYY branch copies the one-or-two-digit field
verbatim (zero-padded), so months such as 13 can be emitted (see the
counterexample theorem). -/
theorem parseDate_shape (s r : Str) (h : parseDate s = some r) :
    dateShape r = true := by
  simp only [parseDate] at h
  by_cases hne : s = []
  · simp [hne] at h
  · simp only [hne, if_neg, if_false] at h
    set t := trimStr (lowerStr s) with ht
    by_cases hp : t = str "present" ∨ t = str "current"
    · simp [hp] at h
    · simp only [hp, if_neg, if_false] at h
      match hmy : monthYearSearchPD t with
      | some (sp, y) =>
        rw [hmy] at h
        simp only [Option.some.injEq] at h
        subst h
        obtain ⟨_, tt, hat⟩ := scanFirst_spec _ t (sp, y) hmy
        obtain ⟨hmem, hy4, hyd⟩ := monthYearAt_spec tt sp y hat
        obtain ⟨hm2, hmd⟩ := monthMap_shape sp hmem
        exact dateShape_build y _ hy4 hyd hm2 hmd
      | none =>
        rw [hmy] at h
        match hys : yearSearch t with
        | some y =>
          rw [hys] at h
          simp only [Option.some.injEq] at h
          subst h
          obtain ⟨p, tt, hat⟩ := scanFirst_spec _ t y hys
          obtain ⟨hy4, hyd⟩ := yearAt_spec p tt y hat
          exact dateShape_build y (str "01") hy4 hyd (by decide) (by decide)
        | none =>
          rw [hys] at h
          match hmm : mmYyyySearch t with
          | some (mm, yyyy) =>
            rw [hmm] at h
            simp only [Option.some.injEq] at h
            subst h
            obtain ⟨_, tt, hat⟩ := scanFirst_spec _ t (mm, yyyy) hmm
            obtain ⟨hml, hmd, hy4, hyd⟩ := mmYyyyAt_spec tt mm yyyy hat
            obtain ⟨hp2, hpd⟩ := padStart2_shape mm hml hmd
            exact dateShape_build yyyy _ hy4 hyd hp2 hpd
          | none => rw [hmm] at h; simp at h

/-- C10 witness: applying the shape invariant at the concrete input
"05/2024", whose parse is "2024-01". -/
theorem parseDate_shape_witness : dateShape (str "2024-01") = true :=
  parseDate_shape (str "05/2024") (str "2024-01") (by decide)

/-- C10 counterexample: on the input "13/20245" parseDate reaches the
MM/YYYY branch (the bare-year branch fails for lack of a word boundary
after 2024) and returns "2024-13", whose month component 13 is outside
the claimed range 01..12. -/
theorem parseDate_month_range_cex :
    parseDate (str "13/20245") = some (str "2024-13") ∧
      claimDateShape (str "2024-13") = false := by decide

/-! ## ATS scoring bounds (C3, C4) -/

theorem cpFullName_bounds (p : PersonalInfo) :
    0 ≤ (cpFullName p).1 ∧ (cpFullName p).1 ≤ 5 := by
  unfold cpFullName; split_ifs <;> simp

theorem cpEmail_bounds (p : PersonalInfo) :
    0 ≤ (cpEmail p).1 ∧ (cpEmail p).1 ≤ 5 := by
  unfold cpEmail; split_ifs <;> simp

theorem cpPhone_bounds (p : PersonalInfo) :
    0 ≤ (cpPhone p).1 ∧ (cpPhone p).1 ≤ 5 := by
  unfold cpPhone; split_ifs <;> simp

theorem cpLocation_bounds (p : PersonalInfo) :
    0 ≤ (cpLocation p).1 ∧ (cpLocation p).1 ≤ 5 := by
  unfold cpLocation; split_ifs <;> simp

theorem cpJobTitle_bounds (p : PersonalInfo) :
    0 ≤ (cpJobTitle p).1 ∧ (cpJobTitle p).1 ≤ 5 := by
  unfold cpJobTitle; split_ifs <;> simp

theorem cpSummary_bounds (p : PersonalInfo) :
    0 ≤ (cpSummary p).1 ∧ (cpSummary p).1 ≤ 5 := by
  unfold cpSummary; split_ifs <;> simp

theorem cpExpCount_bounds (r : ExtendedResumeData) :
    0 ≤ (cpExpCount r).1 ∧ (cpExpCount r).1 ≤ 15 := by
  unfold cpExpCount; split_ifs <;> simp

theorem cpExpDesc_bounds (r : ExtendedResumeData) :
    0 ≤ (cpExpDesc r).1 ∧ (cpExpDesc r).1 ≤ 15 := by
  simp only [cpExpDesc]; split_ifs <;> simp

theorem cpEducation_bounds (r : ExtendedResumeData) :
    0 ≤ (cpEducation r).1 ∧ (cpEducation r).1 ≤ 15 := by
  unfold cpEducation; split_ifs <;> simp

theorem cpSkills_bounds (r : ExtendedResumeData) :
    0 ≤ (cpSkills r).1 ∧ (cpSkills r).1 ≤ 25 := by
  unfold cpSkills; split_ifs <;> simp

theorem calculateCompletenessScore_bounds (r : ExtendedResumeData) :
    0 ≤ (calculateCompletenessScore r).score ∧
      (calculateCompletenessScore r).score ≤ 100 := by
  have h1 := cpFullName_bounds r.personal
  have h2 := cpEmail_bounds r.personal
  have h3 := cpPhone_bounds r.personal
  have h4 := cpLocation_bounds r.personal
  have h5 := cpJobTitle_bounds r.personal
  have h6 := cpSummary_bounds r.personal
  have h7 := cpExpCount_bounds r
  have h8 := cpExpDesc_bounds r
  have h9 := cpEducation_bounds r
  have h10 := cpSkills_bounds r
  unfold calculateCompletenessScore
  refine ⟨le_min (by linarith [h1.1, h2.1, h3.1, h4.1, h5.1, h6.1, h7.1,
    h8.1, h9.1, h10.1]) (by norm_num), min_le_right _ _⟩

theorem fmtSummaryLong_bounds (r : ExtendedResumeData) :
    0 ≤ (fmtSummaryLong r).1 ∧ (fmtSummaryLong r).1 ≤ 10 := by
  unfold fmtSummaryLong; split_ifs <;> simp

theorem fmtBullets_bounds (r : ExtendedResumeData) :
    0 ≤ (fmtBullets r).1 ∧ (fmtBullets r).1 ≤ 15 := by
  simp only [fmtBullets]; split_ifs <;> simp

theorem fmtNumbers_bounds (r : ExtendedResumeData) :
    0 ≤ (fmtNumbers r).1 ∧ (fmtNumbers r).1 ≤ 20 := by
  simp only [fmtNumbers]; split_ifs <;> simp

theorem fmtActionVerbs_bounds (r : ExtendedResumeData) :
    0 ≤ (fmtActionVerbs r).1 ∧ (fmtActionVerbs r).1 ≤ 15 := by
  simp only [fmtActionVerbs]; split_ifs <;> simp

theorem calculateFormattingScore_bounds (r : ExtendedResumeData) :
    0 ≤ (calculateFormattingScore r).score ∧
      (calculateFormattingScore r).score ≤ 100 := by
  have h1 := fmtSummaryLong_bounds r
  have h2 := fmtBullets_bounds r
  have h3 := fmtNumbers_bounds r
  have h4 := fmtActionVerbs_bounds r
  unfold calculateFormattingScore
  exact ⟨le_max_right _ _,
    max_le (by linarith [h1.1, h2.1, h3.1, h4.1]) (by norm_num)⟩

theorem ctAvgDesc_bounds (r : ExtendedResumeData) :
    0 ≤ (ctAvgDesc r).1 ∧ (ctAvgDesc r).1 ≤ 20 := by
  simp only [ctAvgDesc]; split_ifs <;> simp

theorem ctDupSkills_bounds (r : ExtendedResumeData) :
    0 ≤ (ctDupSkills r).1 ∧ (ctDupSkills r).1 ≤ 10 := by
  simp only [ctDupSkills]; split_ifs <;> simp

theorem ctExtras_bounds (r : ExtendedResumeData) :
    0 ≤ (ctExtras r).1 ∧ (ctExtras r).1 ≤ 10 := by
  unfold ctExtras; split_ifs <;> simp

theorem calculateContentScore_bounds (r : ExtendedResumeData) :
    0 ≤ (calculateContentScore r).score ∧
      (calculateContentScore r).score ≤ 100 := by
  have h1 := ctAvgDesc_bounds r
  have h2 := ctDupSkills_bounds r
  have h3 := ctExtras_bounds r
  unfold calculateContentScore
  exact ⟨le_max_right _ _,
    max_le (by linarith [h1.1, h2.1, h3.1]) (by norm_num)⟩

theorem roundQ_bounds (x : ℚ) (h0 : 0 ≤ x) (h1 : x ≤ 100) :
    0 ≤ roundQ x ∧ roundQ x ≤ 100 := by
  unfold roundQ
  constructor
  · exact Int.floor_nonneg.mpr (by linarith)
  · have h2 : x + 1 / 2 ≤ (100 : ℚ) + 1 / 2 := by linarith
    have h3 : (⌊((100 : ℚ) + 1 / 2)⌋ : ℤ) = 100 :=
      Int.floor_eq_iff.mpr ⟨by norm_num, by norm_num⟩
    calc ⌊x + 1 / 2⌋ ≤ ⌊((100 : ℚ) + 1 / 2)⌋ := Int.floor_le_floor h2
    _ = 100 := h3

theorem roundHalf_eq_roundQ (n : Int) (d : Nat) (hd : 0 < d) :
    roundHalf n d = roundQ ((n : ℚ) / (d : ℚ)) := by
  unfold roundHalf roundQ
  have hdq : ((d : ℚ)) ≠ 0 := by positivity
  have hx : (n : ℚ) / (d : ℚ) + 1 / 2 =
      ((2 * n + (d : Int) : Int) : ℚ) / ((2 * d : Nat) : ℚ) := by
    push_cast
    field_simp
    ring
  rw [hx, Rat.floor_intCast_div_natCast]

theorem roundHalf_bounds (n : Int) (d : Nat) (hd : 0 < d) (h0 : 0 ≤ n)
    (h1 : n ≤ 100 * d) : 0 ≤ roundHalf n d ∧ roundHalf n d ≤ 100 := by
  rw [roundHalf_eq_roundQ n d hd]
  have hdq : (0 : ℚ) < (d : ℚ) := by exact_mod_cast hd
  apply roundQ_bounds
  · positivity
  · rw [div_le_iff₀ hdq]
    exact_mod_cast h1

theorem analyzeKeywords_matchRate_bounds (r : ExtendedResumeData)
    (jd : Str) : 0 ≤ (analyzeKeywords r jd).matchRate ∧
      (analyzeKeywords r jd).matchRate ≤ 100 := by
  unfold analyzeKeywords
  split_ifs with h
  · simp
  · simp only []
    split_ifs with h2
    · have hm : ((extractJobKeywords jd).filter fun kw =>
          containsB kw (lowerStr (extractResumeText r)) ∨
            (extractKeywords (lowerStr (extractResumeText r))).contains kw
          ).length ≤ (extractJobKeywords jd).length :=
        List.length_filter_le _ _
      apply roundHalf_bounds _ _ h2
      · positivity
      · have : (100 : Int) * (((extractJobKeywords jd).filter fun kw =>
            containsB kw (lowerStr (extractResumeText r)) ∨
              (extractKeywords (lowerStr (extractResumeText r))).contains kw
            ).length : Int) ≤ 100 * ((extractJobKeywords jd).length : Int) := by
          have := Int.ofNat_le.mpr hm
          omega
        exact this
    · norm_num

theorem keywordPartATS_bounds (r : ExtendedResumeData) (jd : Option Str) :
    0 ≤ (keywordPartATS r jd).1 ∧ (keywordPartATS r jd).1 ≤ 100 := by
  match jd with
  | none => simp [keywordPartATS]
  | some s =>
    have hb := analyzeKeywords_matchRate_bounds r s
    simp only [keywordPartATS]
    split_ifs <;> simp_all

theorem keywordsATS_bounds (r : ExtendedResumeData) (jd : Option Str) :
    0 ≤ (calculateATSScore r jd).breakdown.keywords ∧
      (calculateATSScore r jd).breakdown.keywords ≤ 100 := by
  have h : (calculateATSScore r jd).breakdown.keywords =
      (keywordPartATS r jd).1 := rfl
  rw [h]
  exact keywordPartATS_bounds r jd

/-- C3: calculateATSScore is deterministic; its overall score equals the
rounded weighted combination 0.35/0.30/0.20/0.15 of the breakdown fields;
overall and every breakdown field lie in [0, 100]; and with no job
description the keywords field is the default 70. -/
theorem calculateATSScore_pure_bounds (r r' : ExtendedResumeData)
    (jd jd' : Option Str) (hr : r = r') (hj : jd = jd') :
    calculateATSScore r jd = calculateATSScore r' jd' ∧
    (calculateATSScore r jd).overall =
      roundQ (((calculateATSScore r jd).breakdown.completeness : ℚ) * 0.35 +
        ((calculateATSScore r jd).breakdown.keywords : ℚ) * 0.3 +
        ((calculateATSScore r jd).breakdown.formatting : ℚ) * 0.2 +
        ((calculateATSScore r jd).breakdown.content : ℚ) * 0.15) ∧
    (0 ≤ (calculateATSScore r jd).overall ∧
      (calculateATSScore r jd).overall ≤ 100) ∧
    (0 ≤ (calculateATSScore r jd).breakdown.completeness ∧
      (calculateATSScore r jd).breakdown.completeness ≤ 100) ∧
    (0 ≤ (calculateATSScore r jd).breakdown.keywords ∧
      (calculateATSScore r jd).breakdown.keywords ≤ 100) ∧
    (0 ≤ (calculateATSScore r jd).breakdown.formatting ∧
      (calculateATSScore r jd).breakdown.formatting ≤ 100) ∧
    (0 ≤ (calculateATSScore r jd).breakdown.content ∧
      (calculateATSScore r jd).breakdown.content ≤ 100) ∧
    (calculateATSScore r none).breakdown.keywords = 70 := by
  subst hr; subst hj
  have hc := calculateCompletenessScore_bounds r
  have hk := keywordsATS_bounds r jd
  have hf := calculateFormattingScore_bounds r
  have hct := calculateContentScore_bounds r
  have hck : (calculateATSScore r jd).breakdown.completeness =
      (calculateCompletenessScore r).score := rfl
  have hfk : (calculateATSScore r jd).breakdown.formatting =
      (calculateFormattingScore r).score := rfl
  have hctk : (calculateATSScore r jd).breakdown.content =
      (calculateContentScore r).score := rfl
  have hov : (calculateATSScore r jd).overall =
      roundHalf (7 * (calculateCompletenessScore r).score +
        6 * (keywordPartATS r jd).1 + 4 * (calculateFormattingScore r).score +
        3 * (calculateContentScore r).score) 20 := rfl
  have hkk : (calculateATSScore r jd).breakdown.keywords =
      (keywordPartATS r jd).1 := rfl
  refine ⟨rfl, ?_, ?_, ?_, hk, ?_, ?_, rfl⟩
  · rw [hov, hck, hfk, hctk, hkk,
      roundHalf_eq_roundQ _ 20 (by norm_num)]
    unfold roundQ
    congr 1
    push_cast
    ring
  · rw [hov]
    rw [hkk] at hk
    refine roundHalf_bounds _ 20 (by norm_num) (by linarith [hc.1, hk.1,
      hf.1, hct.1]) ?_
    have : (7 * (calculateCompletenessScore r).score +
        6 * (keywordPartATS r jd).1 + 4 * (calculateFormattingScore r).score +
        3 * (calculateContentScore r).score) ≤ 2000 := by
      linarith [hc.2, hk.2, hf.2, hct.2]
    omega
  · rw [hck]; exact hc
  · rw [hfk]; exact hf
  · rw [hctk]; exact hct

/-- C3 witness: the theorem applied at a concrete empty resume. -/
theorem calculateATSScore_pure_bounds_witness :
    calculateATSScore emptyResume none = calculateATSScore emptyResume none ∧
      (calculateATSScore emptyResume none).breakdown.keywords = 70 := by
  have h := calculateATSScore_pure_bounds emptyResume emptyResume none none
    rfl rfl
  exact ⟨h.1, h.2.2.2.2.2.2.2⟩

/-- C8 counterexample: "dev" is a keyword extracted from the job
description "dev machine learning" and is already matched by the resume,
yet appending it verbatim to the skills list drops breakdown.keywords from
100 to 75: the inserted word splits the resume text "dev machine learning"
into "dev machine dev learning", destroying the match of the tech bigram
"machine learning" both as a substring and as an extracted bi-gram. -/
theorem keywords_monotonic_cex :
    (str "dev") ∈ extractJobKeywords jdKw ∧
    (calculateATSScore resumeKw (some jdKw)).breakdown.keywords = 100 ∧
    (calculateATSScore (addSkill resumeKw (str "dev"))
        (some jdKw)).breakdown.keywords = 75 ∧
    (calculateATSScore (addSkill resumeKw (str "dev"))
        (some jdKw)).breakdown.keywords <
      (calculateATSScore resumeKw (some jdKw)).breakdown.keywords := by
  decide

theorem ne_nil_isEmpty_false {α : Type} (l : List α) (h : l ≠ []) :
    l.isEmpty = false := by
  cases l with
  | nil => exact absurd rfl h
  | cons a t => rfl

/-! ## Substring characterizations for the keyword-matching proof (C8) -/

theorem startsWithB_iff (n h : Str) :
    startsWithB n h = true ↔ ∃ t, h = n ++ t := by
  induction n generalizing h with
  | nil => simp [startsWithB]
  | cons a as ih =>
    cases h with
    | nil =>
      simp only [startsWithB]
      constructor
      · intro hq; exact absurd hq (by simp)
      · rintro ⟨t, ht⟩; simp at ht
    | cons b bs =>
      simp only [startsWithB, List.cons_append, Bool.and_eq_true,
        decide_eq_true_eq]
      constructor
      · rintro ⟨rfl, hs⟩
        obtain ⟨t, rfl⟩ := (ih bs).mp hs
        exact ⟨t, rfl⟩
      · rintro ⟨t, ht⟩
        injection ht with h1 h2
        exact ⟨h1.symm, (ih bs).mpr ⟨t, h2⟩⟩

theorem containsB_iff (n h : Str) :
    containsB n h = true ↔ ∃ u t, h = u ++ n ++ t := by
  induction h with
  | nil =>
    rw [containsB]
    constructor
    · intro hq
      split at hq
      · rename_i hsw
        obtain ⟨t, ht⟩ := (startsWithB_iff n []).mp hsw
        exact ⟨[], t, by simpa using ht⟩
      · simp at hq
    · rintro ⟨u, t, ht⟩
      have hu : u = [] ∧ n = [] := by
        constructor
        · cases u with
          | nil => rfl
          | cons x xs => simp at ht
        · cases u with
          | nil =>
            cases n with
            | nil => rfl
            | cons y ys => simp at ht
          | cons x xs => simp at ht
      rw [hu.2]
      simp [containsB, startsWithB]
  | cons c hs ih =>
    rw [containsB]
    constructor
    · intro hq
      split at hq
      · rename_i hsw
        obtain ⟨t, ht⟩ := (startsWithB_iff n (c :: hs)).mp hsw
        exact ⟨[], t, by simpa using ht⟩
      · obtain ⟨u, t, ht⟩ := ih.mp hq
        exact ⟨c :: u, t, by simp [ht]⟩
    · rintro ⟨u, t, ht⟩
      split
      · rfl
      · rename_i hsw
        cases u with
        | nil =>
          exfalso
          apply (by simpa using hsw : ¬startsWithB n (c :: hs) = true)
          exact (startsWithB_iff n (c :: hs)).mpr ⟨t, by simpa using ht⟩
        | cons x xs =>
          injection ht with h1 h2
          exact ih.mpr ⟨xs, t, h2⟩

theorem containsB_map (f : Char → Char) (n h : Str)
    (hc : containsB n h = true) :
    containsB (n.map f) (h.map f) = true := by
  obtain ⟨u, t, rfl⟩ := (containsB_iff n h).mp hc
  exact (containsB_iff _ _).mpr ⟨u.map f, t.map f, by simp⟩

theorem containsB_trans (a b c : Str) (h1 : containsB a b = true)
    (h2 : containsB b c = true) : containsB a c = true := by
  obtain ⟨u, t, rfl⟩ := (containsB_iff a b).mp h1
  obtain ⟨p, q, rfl⟩ := (containsB_iff _ c).mp h2
  exact (containsB_iff _ _).mpr ⟨p ++ u, t ++ q, by simp⟩

theorem joinChar_mem_contains (sep : Char) (S : Str) :
    ∀ (L : List Str), S ∈ L → containsB S (joinChar sep L) = true := by
  intro L
  induction L with
  | nil => intro h; simp at h
  | cons p ps ih =>
    intro hmem
    rcases List.mem_cons.mp hmem with rfl | hmem2
    · cases ps with
      | nil =>
        exact (containsB_iff _ _).mpr ⟨[], [], by simp [joinChar]⟩
      | cons q qs =>
        exact (containsB_iff _ _).mpr ⟨[], sep :: joinChar sep (q :: qs),
          by simp [joinChar]⟩
    · have hps : ps ≠ [] := by
        intro hq; rw [hq] at hmem2; simp at hmem2
      have hrec := ih hmem2
      obtain ⟨u, t, hut⟩ := (containsB_iff _ _).mp hrec
      cases ps with
      | nil => exact absurd rfl hps
      | cons q qs =>
        exact (containsB_iff _ _).mpr ⟨p ++ sep :: u, t,
          by simp [joinChar, hut]⟩

theorem mem_insertDesc {α : Type} (key : α → Int) (y : α) :
    ∀ (l : List α) (x : α), x ∈ insertDesc key y l → x = y ∨ x ∈ l := by
  intro l
  induction l with
  | nil => intro x h; simp [insertDesc] at h; exact Or.inl h
  | cons a as ih =>
    intro x h
    simp only [insertDesc] at h
    split at h
    · rcases List.mem_cons.mp h with rfl | h2
      · exact Or.inl rfl
      · exact Or.inr h2
    · rcases List.mem_cons.mp h with rfl | h2
      · exact Or.inr (List.mem_cons_self _ _)
      · rcases ih x h2 with h3 | h3
        · exact Or.inl h3
        · exact Or.inr (List.mem_cons_of_mem _ h3)

theorem mem_foldl_insertDesc {α : Type} (key : α → Int) :
    ∀ (l : List α) (acc : List α) (x : α),
    x ∈ l.foldl (fun acc y => insertDesc key y acc) acc →
    x ∈ acc ∨ x ∈ l := by
  intro l
  induction l with
  | nil => intro acc x h; exact Or.inl h
  | cons a as ih =>
    intro acc x h
    rcases ih (insertDesc key a acc) x h with h2 | h2
    · rcases mem_insertDesc key a acc x h2 with rfl | h3
      · exact Or.inr (List.mem_cons_self _ _)
      · exact Or.inl h3
    · exact Or.inr (List.mem_cons_of_mem _ h2)

theorem mem_sortDesc {α : Type} (key : α → Int) (l : List α) (x : α)
    (h : x ∈ sortDesc key l) : x ∈ l := by
  rcases mem_foldl_insertDesc key l [] x h with h2 | h2
  · simp at h2
  · exact h2

theorem mem_pushUnique (acc : List Str) (w x : Str)
    (h : x ∈ pushUnique acc w) : x ∈ acc ∨ x = w := by
  unfold pushUnique at h
  split at h
  · exact Or.inl h
  · rcases List.mem_append.mp h with h2 | h2
    · exact Or.inl h2
    · simp at h2; exact Or.inr h2

/-- Membership through a fold whose step either keeps the accumulator or
pushes the value of the current element when it satisfies a property. -/
theorem mem_foldl_gen {β : Type} (step : List Str → β → List Str)
    (v : β → Str) (Q : β → Prop)
    (hstep : ∀ acc b x, x ∈ step acc b → x ∈ acc ∨ (x = v b ∧ Q b)) :
    ∀ (l : List β) (acc : List Str) (x : Str), x ∈ l.foldl step acc →
    x ∈ acc ∨ ∃ b ∈ l, x = v b ∧ Q b := by
  intro l
  induction l with
  | nil => intro acc x h; exact Or.inl h
  | cons a as ih =>
    intro acc x h
    rcases ih (step acc a) x h with h2 | h2
    · rcases hstep acc a x h2 with h3 | h3
      · exact Or.inl h3
      · exact Or.inr ⟨a, List.mem_cons_self _ _, h3⟩
    · obtain ⟨b, hb, hx⟩ := h2
      exact Or.inr ⟨b, List.mem_cons_of_mem _ hb, hx⟩

theorem mem_adjPairs : ∀ (l : List Str) (pr : Str × Str),
    pr ∈ adjPairs l → pr.1 ∈ l ∧ pr.2 ∈ l := by
  intro l
  induction l with
  | nil => intro pr h; simp [adjPairs] at h
  | cons a tail ih =>
    intro pr h
    cases tail with
    | nil => simp [adjPairs] at h
    | cons b r =>
      rw [show adjPairs (a :: b :: r) = (a, b) :: adjPairs (b :: r) from rfl]
        at h
      rcases List.mem_cons.mp h with rfl | h2
      · exact ⟨List.mem_cons_self _ _, List.mem_cons_of_mem _
          (List.mem_cons_self _ _)⟩
      · obtain ⟨h3, h4⟩ := ih pr h2
        exact ⟨List.mem_cons_of_mem _ h3, List.mem_cons_of_mem _ h4⟩

/-- Every keyword produced by extractKeywords is either a single word of
the normalized split with length at least 2, or a tech bi-gram built from
two adjacent words. -/
theorem mem_extractKeywords (t x : Str) (h : x ∈ extractKeywords t) :
    (x ∈ splitChar ' ' (normalizeKw t) ∧ 2 ≤ x.length) ∨
    (∃ pr ∈ adjPairs (splitChar ' ' (normalizeKw t)),
      x = pr.1 ++ ' ' :: pr.2) := by
  unfold extractKeywords at h
  split at h
  · simp at h
  · have h2 := mem_sortDesc _ _ x h
    have h3 := mem_foldl_gen
      (fun acc (p : Str × Str) =>
        if techKeywords.contains (p.1 ++ ' ' :: p.2) then
          pushUnique acc (p.1 ++ ' ' :: p.2) else acc)
      (fun p => p.1 ++ ' ' :: p.2) (fun _ => True)
      (by
        intro acc b y hy
        dsimp only at hy
        split at hy
        · rcases mem_pushUnique _ _ _ hy with hz | hz
          · exact Or.inl hz
          · exact Or.inr ⟨hz, trivial⟩
        · exact Or.inl hy)
      (adjPairs (splitChar ' ' (normalizeKw t))) _ x h2
    rcases h3 with h4 | h4
    · left
      have h5 := mem_foldl_gen
        (fun acc w =>
          if w.length ≥ 2 ∧ ¬stopWords.contains w then pushUnique acc w
          else acc)
        (fun w => w) (fun w => 2 ≤ w.length)
        (by
          intro acc b y hy
          dsimp only at hy
          split at hy
          · rename_i hcond
            rcases mem_pushUnique _ _ _ hy with hz | hz
            · exact Or.inl hz
            · exact Or.inr ⟨hz, hz ▸ hcond.1⟩
          · exact Or.inl hy)
        (splitChar ' ' (normalizeKw t)) [] x h4
      rcases h5 with h6 | h6
      · simp at h6
      · obtain ⟨w, hw, rfl, hlen⟩ := h6
        exact ⟨hw, hlen⟩
    · right
      obtain ⟨pr, hpr, hx, _⟩ := h4
      exact ⟨pr, hpr, hx⟩

theorem splitChar_ne_nil (sep : Char) : ∀ (s : Str), splitChar sep s ≠ [] := by
  intro s
  induction s with
  | nil => simp [splitChar]
  | cons c r ih =>
    simp only [splitChar]
    split_ifs with h
    · simp
    · match hr : splitChar sep r with
      | [] => simp
      | p :: ps => simp

theorem mem_splitChar_subset (sep : Char) :
    ∀ (s : Str) (p : Str) (c : Char), p ∈ splitChar sep s → c ∈ p →
    c ∈ s := by
  intro s
  induction s with
  | nil =>
    intro p c hp hc
    simp [splitChar] at hp
    subst hp
    simp at hc
  | cons c0 r ih =>
    intro p c hp hc
    simp only [splitChar] at hp
    split_ifs at hp with h
    · rcases List.mem_cons.mp hp with rfl | h2
      · simp at hc
      · exact List.mem_cons_of_mem _ (ih p c h2 hc)
    · match hr : splitChar sep r with
      | [] => exact absurd hr (splitChar_ne_nil sep r)
      | p0 :: ps =>
        rw [hr] at hp
        rcases List.mem_cons.mp hp with rfl | h2
        · rcases List.mem_cons.mp hc with rfl | h3
          · exact List.mem_cons_self _ _
          · refine List.mem_cons_of_mem _ (ih p0 c ?_ h3)
            rw [hr]; exact List.mem_cons_self _ _
        · refine List.mem_cons_of_mem _ (ih p c ?_ hc)
          rw [hr]; exact List.mem_cons_of_mem _ h2

theorem mem_trimLeft_subset : ∀ (s : Str) (c : Char), c ∈ trimLeft s →
    c ∈ s := by
  intro s
  induction s with
  | nil => intro c h; simp [trimLeft] at h
  | cons c0 r ih =>
    intro c h
    simp only [trimLeft] at h
    split_ifs at h with hws
    · exact List.mem_cons_of_mem _ (ih c h)
    · exact h

theorem mem_trimStr_subset (s : Str) (c : Char) (h : c ∈ trimStr s) :
    c ∈ s := by
  unfold trimStr at h
  have h1 := mem_trimLeft_subset _ c h
  rw [List.mem_reverse] at h1
  have h2 := mem_trimLeft_subset _ c h1
  rw [List.mem_reverse] at h2
  exact h2

theorem mem_collapseWsGo_chars : ∀ (s : Str) (b : Bool) (c : Char),
    c ∈ collapseWsGo b s → c = ' ' ∨ c ∈ s := by
  intro s
  induction s with
  | nil => intro b c h; simp [collapseWsGo] at h
  | cons c0 r ih =>
    intro b c h
    simp only [collapseWsGo] at h
    split_ifs at h with h1 h2
    · rcases ih true c h with h3 | h3
      · exact Or.inl h3
      · exact Or.inr (List.mem_cons_of_mem _ h3)
    · rcases List.mem_cons.mp h with rfl | h3
      · exact Or.inl rfl
      · rcases ih true c h3 with h4 | h4
        · exact Or.inl h4
        · exact Or.inr (List.mem_cons_of_mem _ h4)
    · rcases List.mem_cons.mp h with rfl | h3
      · exact Or.inr (List.mem_cons_self _ _)
      · rcases ih false c h3 with h4 | h4
        · exact Or.inl h4
        · exact Or.inr (List.mem_cons_of_mem _ h4)

theorem toLowerChar_toNat_of_upper (c : Char)
    (h : 65 ≤ c.toNat ∧ c.toNat ≤ 90) :
    (Char.ofNat (c.toNat + 32)).toNat = c.toNat + 32 := by
  have hv : (c.toNat + 32).isValidChar := Or.inl (by omega)
  simp only [Char.ofNat, dif_pos hv]
  rfl

theorem toLowerChar_idem (c : Char) :
    toLowerChar (toLowerChar c) = toLowerChar c := by
  by_cases h : 65 ≤ c.toNat ∧ c.toNat ≤ 90
  · have hin : toLowerChar c = Char.ofNat (c.toNat + 32) := by
      rw [toLowerChar, if_pos h]
    rw [hin, toLowerChar,
      if_neg (by rw [toLowerChar_toNat_of_upper c h]; omega)]
  · have hin : toLowerChar c = c := by rw [toLowerChar, if_neg h]
    rw [hin, hin]

/-- Every character of the normalization output is fixed by toLowerChar. -/
theorem normalizeKw_chars_lower (t : Str) (c : Char)
    (h : c ∈ normalizeKw t) : toLowerChar c = c := by
  unfold normalizeKw at h
  have h1 := mem_trimStr_subset _ c h
  rcases mem_collapseWsGo_chars _ false c h1 with rfl | h2
  · decide
  · obtain ⟨d, hd, hc⟩ := List.mem_map.mp h2
    obtain ⟨e, _, he⟩ := List.mem_map.mp hd
    subst hc
    split_ifs
    · subst he; exact toLowerChar_idem e
    · decide

theorem lowerStr_self (k : Str) (h : ∀ c ∈ k, toLowerChar c = c) :
    lowerStr k = k := by
  unfold lowerStr
  induction k with
  | nil => rfl
  | cons c r ih =>
    simp only [List.map_cons]
    rw [h c (List.mem_cons_self _ _), ih (fun d hd =>
      h d (List.mem_cons_of_mem _ hd))]

/-- Every extracted keyword is already lowercase. -/
theorem extractKeywords_lower (t x : Str) (h : x ∈ extractKeywords t) :
    lowerStr x = x := by
  apply lowerStr_self
  intro c hc
  rcases mem_extractKeywords t x h with ⟨hw, _⟩ | ⟨pr, hpr, rfl⟩
  · exact normalizeKw_chars_lower t c (mem_splitChar_subset ' ' _ x c hw hc)
  · obtain ⟨h1, h2⟩ := mem_adjPairs _ pr hpr
    rcases List.mem_append.mp hc with h3 | h3
    · exact normalizeKw_chars_lower t c
        (mem_splitChar_subset ' ' _ _ c h1 h3)
    · rcases List.mem_cons.mp h3 with rfl | h4
      · decide
      · exact normalizeKw_chars_lower t c
          (mem_splitChar_subset ' ' _ _ c h2 h4)

/-- Every extracted keyword is non-empty. -/
theorem extractKeywords_ne_nil (t x : Str) (h : x ∈ extractKeywords t) :
    x ≠ [] := by
  rcases mem_extractKeywords t x h with ⟨_, hlen⟩ | ⟨pr, _, rfl⟩
  · intro hq; rw [hq] at hlen; simp at hlen
  · intro hq
    have : (pr.1 ++ ' ' :: pr.2).length = 0 := by rw [hq]; rfl
    simp at this

theorem joinChar_snoc_suffix (sep : Char) (k : Str) :
    ∀ (xs : List Str), ∃ u, joinChar sep (xs ++ [k]) = u ++ k := by
  intro xs
  induction xs with
  | nil => exact ⟨[], by simp [joinChar]⟩
  | cons x rest ih =>
    obtain ⟨u, hu⟩ := ih
    cases hrest : rest ++ [k] with
    | nil => simp at hrest
    | cons y ys =>
      refine ⟨x ++ sep :: u, ?_⟩
      have : joinChar sep ((x :: rest) ++ [k]) =
          x ++ sep :: joinChar sep (rest ++ [k]) := by
        simp only [List.cons_append]
        rw [hrest]
        simp [joinChar, ← hrest]
      rw [this, hu]
      simp

/-- C4 counterexample: this resume satisfies every hypothesis the claim
lists (non-empty name, email and phone, exactly 3 experiences with
bulleted ≥50-character quantified descriptions, 2 education entries, 10
skills), yet its completeness score is 85, not 100: the claim omits the
location (5), job title (5) and summary (5) points needed to reach 100. -/
theorem completeness_scenario_cex :
    resumeC4.personal.fullName ≠ [] ∧ resumeC4.personal.email ≠ [] ∧
    resumeC4.personal.phone ≠ [] ∧
    resumeC4.experiences.length = 3 ∧
    (resumeC4.experiences.all fun e =>
      startsWithB (str "- ") e.description && e.description.any isDigitChar
        && decide (50 ≤ e.description.length)) = true ∧
    resumeC4.education.length = 2 ∧ resumeC4.skills.length = 10 ∧
    (calculateATSScore resumeC4 none).breakdown.completeness = 85 ∧
    (calculateATSScore resumeC4 none).breakdown.completeness ≠ 100 := by
  decide

/-- C4 (amended): for every resume with non-empty full name, email, phone,
location and job title, a summary of at least 50 characters, exactly 3
experience entries each with a description of at least 50 characters (the
claim additionally assumes them bulleted and quantified, which completeness
does not inspect), 2 education entries and 10 skills, calculateATSScore
with no job description yields completeness 100 and keywords 70.  As
stated by the claim (without location, job title and summary) the
completeness score is 85, not 100. -/
theorem completeness_full_resume (r : ExtendedResumeData)
    (hn : r.personal.fullName ≠ []) (he : r.personal.email ≠ [])
    (hp : r.personal.phone ≠ []) (hl : r.personal.location ≠ [])
    (hj : r.personal.jobTitle ≠ []) (hs : 50 ≤ r.personal.summary.length)
    (hx : r.experiences.length = 3)
    (_hb : ∀ e ∈ r.experiences,
      startsWithB (str "- ") e.description = true ∧
        e.description.any isDigitChar = true)
    (hd : ∀ e ∈ r.experiences, 50 ≤ e.description.length)
    (hed : r.education.length = 2) (hsk : r.skills.length = 10) :
    (calculateATSScore r none).breakdown.completeness = 100 ∧
      (calculateATSScore r none).breakdown.keywords = 70 := by
  refine ⟨?_, rfl⟩
  have hcompl : (calculateATSScore r none).breakdown.completeness =
      (calculateCompletenessScore r).score := rfl
  rw [hcompl]
  have hsne : r.personal.summary ≠ [] := by
    intro hq; rw [hq] at hs; simp at hs
  have e1 : cpFullName r.personal = (5, []) := by
    simp [cpFullName, ne_nil_isEmpty_false _ hn]
  have e2 : cpEmail r.personal = (5, []) := by
    simp [cpEmail, ne_nil_isEmpty_false _ he]
  have e3 : cpPhone r.personal = (5, []) := by
    simp [cpPhone, ne_nil_isEmpty_false _ hp]
  have e4 : cpLocation r.personal = (5, []) := by
    simp [cpLocation, ne_nil_isEmpty_false _ hl]
  have e5 : cpJobTitle r.personal = (5, []) := by
    simp [cpJobTitle, ne_nil_isEmpty_false _ hj]
  have e6 : cpSummary r.personal = (5, []) := by
    simp [cpSummary, ne_nil_isEmpty_false _ hsne, hs]
  have e7 : cpExpCount r = (15, []) := by
    simp [cpExpCount, hx]
  have e8 : cpExpDesc r = (15, []) := by
    simp only [cpExpDesc]
    rw [List.filter_eq_self.mpr ?hall]
    case hall =>
      intro e hee
      have h50 := hd e hee
      have hne : e.description ≠ [] := by
        intro hq; rw [hq] at h50; simp at h50
      simp [ne_nil_isEmpty_false _ hne, h50]
    rw [hx]
    simp
  have e9 : cpEducation r = (15, []) := by
    simp [cpEducation, hed]
  have e10 : cpSkills r = (25, []) := by
    simp [cpSkills, hsk]
  simp [calculateCompletenessScore, e1, e2, e3, e4, e5, e6, e7, e8, e9, e10]

/-- C4 witness: the amended theorem applied to the fully-populated
concrete resume. -/
theorem completeness_full_resume_witness :
    (calculateATSScore resumeC4full none).breakdown.completeness = 100 ∧
      (calculateATSScore resumeC4full none).breakdown.keywords = 70 :=
  completeness_full_resume resumeC4full (by decide) (by decide) (by decide)
    (by decide) (by decide) (by decide) (by decide) (by decide) (by decide)
    (by decide) (by decide)

theorem mem_extractJobKeywords (jd k : Str)
    (h : k ∈ extractJobKeywords jd) : k ∈ extractKeywords jd := by
  unfold extractJobKeywords at h
  exact mem_sortDesc _ _ _ (List.mem_of_mem_take h)

/-- The skills segment of the extracted resume text is an infix of the
whole text whenever it is non-empty. -/
theorem extractResumeText_skills_mem (r' : ExtendedResumeData)
    (hne : joinChar ' ' r'.skills ≠ []) :
    containsB (joinChar ' ' r'.skills) (extractResumeText r') = true := by
  unfold extractResumeText
  apply joinChar_mem_contains
  apply List.mem_filter.mpr
  constructor
  · simp
  · simp [ne_nil_isEmpty_false _ hne]

/-- C8 (amended): appending a keyword extracted from a non-blank job
description verbatim to the skills list guarantees that this keyword is
matched by the subsequent analysis.  The original claim — that the overall
breakdown.keywords score cannot decrease — is false: the insertion can
break other keyword matches, such as a tech bi-gram spanning the boundary
between the skills segment and the following segment of the concatenated
resume text (see the counterexample theorem). -/
theorem appended_keyword_matched (r : ExtendedResumeData) (jd k : Str)
    (hk : k ∈ extractJobKeywords jd)
    (hne : (trimStr jd).isEmpty = false) :
    k ∈ (analyzeKeywords (addSkill r k) jd).matched := by
  have hkk := mem_extractJobKeywords jd k hk
  have hlow := extractKeywords_lower jd k hkk
  have hkne := extractKeywords_ne_nil jd k hkk
  obtain ⟨u, hu⟩ := joinChar_snoc_suffix ' ' k r.skills
  have hS_ne : joinChar ' ' ((addSkill r k).skills) ≠ [] := by
    show joinChar ' ' (r.skills ++ [k]) ≠ []
    rw [hu]
    intro hq
    exact hkne (List.append_eq_nil.mp hq).2
  have hkS : containsB k (joinChar ' ' ((addSkill r k).skills)) = true := by
    show containsB k (joinChar ' ' (r.skills ++ [k])) = true
    exact (containsB_iff _ _).mpr ⟨u, [], by simp [hu]⟩
  have hraw : containsB k (extractResumeText (addSkill r k)) = true :=
    containsB_trans _ _ _ hkS (extractResumeText_skills_mem _ hS_ne)
  have hlowC : containsB k
      (lowerStr (extractResumeText (addSkill r k))) = true := by
    have hm := containsB_map toLowerChar _ _ hraw
    rwa [show List.map toLowerChar k = lowerStr k from rfl, hlow] at hm
  unfold analyzeKeywords
  rw [if_neg (by simp [hne])]
  apply List.mem_filter.mpr
  refine ⟨hk, ?_⟩
  simp only [decide_eq_true_eq]
  exact Or.inl hlowC

/-- C8 witness: the amended theorem applied at the counterexample data. -/
theorem appended_keyword_matched_witness :
    (str "dev") ∈
      (analyzeKeywords (addSkill resumeKw (str "dev")) jdKw).matched :=
  appended_keyword_matched resumeKw jdKw (str "dev") (by decide) (by decide)

/-! ## Ordering and non-overlap of detectSections output (C5) -/

theorem mem_foldl_pair {α β γ : Type} (step : List α × γ → β → List α × γ)
    (P : α → Prop)
    (hstep : ∀ acc b x, x ∈ (step acc b).1 → x ∈ acc.1 ∨ P x) :
    ∀ (l : List β) (acc : List α × γ) (x : α), x ∈ (l.foldl step acc).1 →
    x ∈ acc.1 ∨ P x := by
  intro l
  induction l with
  | nil => intro acc x h; exact Or.inl h
  | cons a as ih =>
    intro acc x h
    rcases ih (step acc a) x h with h2 | h2
    · exact hstep acc a x h2
    · exact Or.inr h2

theorem lineMatches_startle (lines : List Str) (i lineStart : Nat)
    (lineT : Str) (st : RegexSt) :
    ∀ x ∈ (lineMatches lines i lineStart lineT st).1,
    x.startIndex ≤ x.endIndex := by
  intro x hx
  have h := mem_foldl_pair _ (fun y => y.startIndex ≤ y.endIndex) ?hs
    sectionTypesList ([], st) x hx
  · rcases h with h2 | h2
    · simp at h2
    · exact h2
  case hs =>
    intro acc b y hy
    dsimp only at hy
    split at hy
    · exact Or.inl hy
    · split at hy
      · rcases List.mem_append.mp hy with h2 | h2
        · exact Or.inl h2
        · simp at h2
          subst h2
          exact Or.inr (Nat.le_add_right _ _)
      · exact Or.inl hy

theorem collectGo_startle (lines : List Str) :
    ∀ (rest : List Str) (i ci : Nat) (st : RegexSt) (x : SectionMatch),
    x ∈ (collectGo lines rest i ci st).1 → x.startIndex ≤ x.endIndex := by
  intro rest
  induction rest with
  | nil => intro i ci st x h; simp [collectGo] at h
  | cons l ls ih =>
    intro i ci st x h
    simp only [collectGo] at h
    rcases List.mem_append.mp h with h2 | h2
    · exact lineMatches_startle lines i ci (trimStr l) st x h2
    · exact ih _ _ _ x h2

theorem mem_insertAsc {α : Type} (key : α → Int) (y : α) :
    ∀ (l : List α) (x : α), x ∈ insertAsc key y l → x = y ∨ x ∈ l := by
  intro l
  induction l with
  | nil => intro x h; simp [insertAsc] at h; exact Or.inl h
  | cons a as ih =>
    intro x h
    simp only [insertAsc] at h
    split at h
    · rcases List.mem_cons.mp h with rfl | h2
      · exact Or.inl rfl
      · exact Or.inr h2
    · rcases List.mem_cons.mp h with rfl | h2
      · exact Or.inr (List.mem_cons_self _ _)
      · rcases ih x h2 with h3 | h3
        · exact Or.inl h3
        · exact Or.inr (List.mem_cons_of_mem _ h3)

theorem mem_sortAsc {α : Type} (key : α → Int) :
    ∀ (l acc : List α) (x : α),
    x ∈ l.foldl (fun acc y => insertAsc key y acc) acc →
    x ∈ acc ∨ x ∈ l := by
  intro l
  induction l with
  | nil => intro acc x h; exact Or.inl h
  | cons a as ih =>
    intro acc x h
    rcases ih (insertAsc key a acc) x h with h2 | h2
    · rcases mem_insertAsc key a acc x h2 with rfl | h3
      · exact Or.inr (List.mem_cons_self _ _)
      · exact Or.inl h3
    · exact Or.inr (List.mem_cons_of_mem _ h2)

theorem pairwise_insertAsc {α : Type} (key : α → Int) (x : α) :
    ∀ (l : List α),
    l.Pairwise (fun a b => key a ≤ key b) →
    (insertAsc key x l).Pairwise (fun a b => key a ≤ key b) := by
  intro l
  induction l with
  | nil => intro _; simp [insertAsc]
  | cons y ys ih =>
    intro h
    obtain ⟨hy, hys⟩ := List.pairwise_cons.mp h
    simp only [insertAsc]
    split_ifs with hlt
    · refine List.pairwise_cons.mpr ⟨?_, h⟩
      intro z hz
      rcases List.mem_cons.mp hz with rfl | h2
      · omega
      · have := hy z h2
        omega
    · refine List.pairwise_cons.mpr ⟨?_, ih hys⟩
      intro z hz
      rcases mem_insertAsc key x ys z hz with rfl | h2
      · omega
      · exact hy z h2

theorem pairwise_sortAsc {α : Type} (key : α → Int) :
    ∀ (l acc : List α),
    acc.Pairwise (fun a b => key a ≤ key b) →
    (l.foldl (fun acc y => insertAsc key y acc) acc).Pairwise
      (fun a b => key a ≤ key b) := by
  intro l
  induction l with
  | nil => intro acc h; exact h
  | cons a as ih =>
    intro acc h
    exact ih (insertAsc key a acc) (pairwise_insertAsc key a acc h)

theorem mem_roGo : ∀ (rest acc : List SectionMatch) (x : SectionMatch),
    x ∈ roGo acc rest → x ∈ acc ∨ x ∈ rest := by
  intro rest
  induction rest with
  | nil =>
    intro acc x h
    rw [roGo] at h
    exact Or.inl h
  | cons cur rs ih =>
    intro acc x h
    match acc with
    | [] =>
      rw [roGo] at h
      rcases ih [cur] x h with h2 | h2
      · simp at h2
        subst h2
        exact Or.inr (List.mem_cons_self _ _)
      · exact Or.inr (List.mem_cons_of_mem _ h2)
    | p :: acc' =>
      rw [roGo] at h
      split_ifs at h with h1 h2
      · rcases ih _ x h with h3 | h3
        · rcases List.mem_cons.mp h3 with rfl | h4
          · exact Or.inr (List.mem_cons_self _ _)
          · exact Or.inl h4
        · exact Or.inr (List.mem_cons_of_mem _ h3)
      · rcases ih _ x h with h3 | h3
        · rcases List.mem_cons.mp h3 with rfl | h4
          · exact Or.inr (List.mem_cons_self _ _)
          · exact Or.inl (List.mem_cons_of_mem _ h4)
        · exact Or.inr (List.mem_cons_of_mem _ h3)
      · rcases ih _ x h with h3 | h3
        · exact Or.inl h3
        · exact Or.inr (List.mem_cons_of_mem _ h3)

theorem roGo_chain : ∀ (rest : List SectionMatch) (p : SectionMatch)
    (acc' : List SectionMatch),
    List.Chain' (fun b a => a.endIndex < b.startIndex) (p :: acc') →
    (∀ x ∈ rest, p.startIndex ≤ x.startIndex) →
    rest.Pairwise (fun a b => a.startIndex ≤ b.startIndex) →
    List.Chain' (fun b a => a.endIndex < b.startIndex)
      (roGo (p :: acc') rest) := by
  intro rest
  induction rest with
  | nil =>
    intro p acc' hc _ _
    rw [roGo]
    exact hc
  | cons cur rs ih =>
    intro p acc' hc hstart hpw
    obtain ⟨hpwh, hpwt⟩ := List.pairwise_cons.mp hpw
    rw [roGo]
    split_ifs with h1 h2
    · exact ih cur (p :: acc')
        (List.chain'_cons.mpr ⟨by omega, hc⟩)
        (fun x hx => hpwh x hx) hpwt
    · have hpc : p.startIndex ≤ cur.startIndex :=
        hstart cur (List.mem_cons_self _ _)
      refine ih cur acc' ?_ (fun x hx => hpwh x hx) hpwt
      cases acc' with
      | nil => exact List.chain'_singleton _
      | cons w ws =>
        obtain ⟨hw, hcw⟩ := List.chain'_cons.mp hc
        exact List.chain'_cons.mpr ⟨by omega, hcw⟩
    · exact ih p acc' hc
        (fun x hx => hstart x (List.mem_cons_of_mem _ hx)) hpwt

theorem chainRev_head_lt :
    ∀ (l : List SectionMatch) (a : SectionMatch),
    List.Chain' (fun x y => x.endIndex < y.startIndex) (a :: l) →
    (∀ x ∈ l, x.startIndex ≤ x.endIndex) →
    ∀ b ∈ l, a.endIndex < b.startIndex := by
  intro l
  induction l with
  | nil => intro a _ _ b hb; simp at hb
  | cons c l' ih =>
    intro a hc hse b hb
    obtain ⟨hac, hcl⟩ := List.chain'_cons.mp hc
    rcases List.mem_cons.mp hb with rfl | h2
    · exact hac
    · have hcb := ih c hcl
        (fun x hx => hse x (List.mem_cons_of_mem _ hx)) b h2
      have hcse := hse c (List.mem_cons_self _ _)
      omega

theorem chain_pairwise :
    ∀ (l : List SectionMatch),
    List.Chain' (fun x y => x.endIndex < y.startIndex) l →
    (∀ x ∈ l, x.startIndex ≤ x.endIndex) →
    l.Pairwise (fun a b => a.startIndex < b.startIndex ∧
      a.endIndex < b.startIndex) := by
  intro l
  induction l with
  | nil => intro _ _; exact List.Pairwise.nil
  | cons a l' ih =>
    intro hc hse
    refine List.pairwise_cons.mpr ⟨?_, ih hc.tail
      (fun x hx => hse x (List.mem_cons_of_mem _ hx))⟩
    intro b hb
    have h1 := chainRev_head_lt l' a hc
      (fun x hx => hse x (List.mem_cons_of_mem _ hx)) b hb
    have h2 := hse a (List.mem_cons_self _ _)
    exact ⟨by omega, h1⟩

/-- C5: for every regex state and input text, the section list returned by
detectSections is strictly ordered by startIndex and pairwise
non-overlapping; and of two overlapping collected matches (sorted by
start), resolveOverlaps keeps the strictly-higher-confidence one, keeping
the earlier-seen one on ties — in particular, with confidences 80 and 60
the 80-confidence match is the one kept. -/
theorem detectSections_nonoverlap :
    (∀ (st : RegexSt) (text : Str),
      (detectSections st text).1.Pairwise (fun a b =>
        a.startIndex < b.startIndex ∧ a.endIndex < b.startIndex)) ∧
    (∀ a b : SectionMatch, a.startIndex ≤ b.startIndex →
      b.startIndex ≤ a.endIndex →
      resolveOverlaps [a, b] =
        if a.confidence < b.confidence then [b] else [a]) := by
  constructor
  · intro st text
    show ((resolveOverlaps (sortByStart
      (collectGo (splitChar '\n' text) (splitChar '\n' text) 0 0 st).1),
      (collectGo (splitChar '\n' text) (splitChar '\n' text) 0 0
        st).2).1).Pairwise _
    have hse : ∀ x ∈ (collectGo (splitChar '\n' text) (splitChar '\n' text)
        0 0 st).1, x.startIndex ≤ x.endIndex :=
      fun x hx => collectGo_startle _ _ _ _ _ x hx
    have hsorted : (sortByStart (collectGo (splitChar '\n' text)
        (splitChar '\n' text) 0 0 st).1).Pairwise
        (fun a b => a.startIndex ≤ b.startIndex) := by
      have h0 := pairwise_sortAsc (fun s : SectionMatch =>
        (s.startIndex : Int)) (collectGo (splitChar '\n' text)
          (splitChar '\n' text) 0 0 st).1 [] List.Pairwise.nil
      exact h0.imp (fun h => Nat.cast_le.mp h)
    have hmemS : ∀ x ∈ sortByStart (collectGo (splitChar '\n' text)
        (splitChar '\n' text) 0 0 st).1, x.startIndex ≤ x.endIndex := by
      intro x hx
      rcases mem_sortAsc _ _ [] x hx with h2 | h2
      · simp at h2
      · exact hse x h2
    cases hL : sortByStart (collectGo (splitChar '\n' text)
        (splitChar '\n' text) 0 0 st).1 with
    | nil => simp [resolveOverlaps]
    | cons s0 tail =>
      rw [hL] at hsorted hmemS
      cases tail with
      | nil => simp [resolveOverlaps]
      | cons s1 rest' =>
        show (roGo [s0] (s1 :: rest')).reverse.Pairwise _
        obtain ⟨hs0, hrest⟩ := List.pairwise_cons.mp hsorted
        apply chain_pairwise
        · rw [List.chain'_reverse]
          exact roGo_chain (s1 :: rest') s0 [] (List.chain'_singleton _)
            hs0 hrest
        · intro x hx
          rw [List.mem_reverse] at hx
          rcases mem_roGo _ _ x hx with h2 | h2
          · simp at h2
            refine hmemS x ?_
            rw [h2]
            exact List.mem_cons_self _ _
          · exact hmemS x (List.mem_cons_of_mem _ h2)
  · intro a b hab hba
    simp only [resolveOverlaps, roGo]
    rw [if_neg (by omega : ¬b.startIndex > a.endIndex)]
    split_ifs with h
    · simp
    · simp

/-- C5 witness: two overlapping matches with confidences 80 and 60; the
80-confidence match is kept. -/
theorem detectSections_nonoverlap_witness :
    resolveOverlaps
      [⟨.experience, 0, 10, str "x", 80⟩, ⟨.skills, 5, 8, str "y", 60⟩] =
      [⟨.experience, 0, 10, str "x", 80⟩] := by
  have h := detectSections_nonoverlap.2 ⟨.experience, 0, 10, str "x", 80⟩
    ⟨.skills, 5, 8, str "y", 60⟩ (by decide) (by decide)
  rw [h]
  decide

/-! ## Purity of detectSections (C6) -/

/-- C6: detectSections is NOT pure.  DATE_PATTERNS are module-level
regexes with the g flag, and .test advances their persistent lastIndex.
On this text a first call (from fresh module state) finds the date range
"2020 - 2023" and reports the experience section with confidence 85; an
immediately following call with identical input starts the search at
lastIndex 22, finds nothing, and reports confidence 70 (also resetting
lastIndex, so a third call would again yield 85). -/
theorem detectSections_stateful :
    (detectSections initRegexSt textC6).1 ≠
      (detectSections ((detectSections initRegexSt textC6).2) textC6).1 ∧
    (detectSections initRegexSt textC6).1.map SectionMatch.confidence =
      [85] ∧
    (detectSections ((detectSections initRegexSt textC6).2)
        textC6).1.map SectionMatch.confidence = [70] := by
  decide

/-- C1: the spec claims parseDate maps MM/YYYY inputs to the zero-padded
YYYY-MM string.  The code instead returns YYYY-01 for every well-formed
MM/YYYY input: the bare-year branch ( \b(\d{4})\b ) matches the YYYY part
first, so the dedicated MM/YYYY branch (with its zero-padding logic and
its own explanatory comment) is unreachable for exactly the inputs it was
written for.  At "05/2024" the code yields "2024-01", not "2024-05". -/
theorem parseDate_mm_yyyy_bug :
    parseDate (str "05/2024") = some (str "2024-01") ∧
      parseDate (str "05/2024") ≠ some (str "2024-05") := by decide

set_option maxRecDepth 100000 in
/-- C2 counterexample: on the end-to-end scenario text the skills list is
["Go", "SQL"], not a set-equal of \x7b"Python", "Go", "SQL"\x7d: the comma
split of the detected skills content "SKILLS\nPython, Go, SQL" yields the
piece "SKILLS\nPython" as the first item, and the /^(skills|technical|core|areas)/i
header filter of parseSkills removes it, dropping "Python"; no other
delimiter produces more valid items. -/
theorem parseResumeText_scenario_cex :
    janeParsed.skills = [str "Go", str "SQL"] ∧
      (str "Python") ∉ janeParsed.skills ∧
      (str "Python") ∈ [str "Python", str "Go", str "SQL"] := by
  refine ⟨rfl, ?_, by decide⟩
  intro h
  rw [show janeParsed.skills = [str "Go", str "SQL"] from rfl] at h
  revert h
  decide

set_option maxRecDepth 100000 in
/-- C2 (amended): the end-to-end scenario parse yields fullName
"Jane Doe", contact.email "jane@example.com", exactly one experience
entry (company "Acme Inc" containing "Acme Inc", current = true,
startDate "2020-01", and exactly one bullet, which contains "40%"),
exactly one education entry whose degree contains "Bachelor" and whose
field contains "Computer Science" - but the skills list is
["Go", "SQL"]: "Python" is lost to the header filter of parseSkills. -/
theorem parseResumeText_scenario :
    janeParsed.fullName = some (str "Jane Doe") ∧
    janeParsed.contact.email = some (str "jane@example.com") ∧
    janeParsed.experiences.length = 1 ∧
    janeParsed.experiences.all
      (fun e => containsB (str "Acme Inc") e.company && e.current &&
        decide (e.startDate = some (str "2020-01")) &&
        decide (e.bullets.length = 1) &&
        e.bullets.all (containsB (str "40%"))) = true ∧
    janeParsed.education.length = 1 ∧
    janeParsed.education.all
      (fun e => containsB (str "Bachelor") e.degree &&
        (match e.field with
         | some fd => containsB (str "Computer Science") fd
         | none => false)) = true ∧
    janeParsed.skills = [str "Go", str "SQL"] :=
  ⟨rfl, rfl, rfl, rfl, rfl, rfl, rfl⟩

/-- C7: for every accepted (PDF or DOCX), non-legacy file whose extracted
raw text trims to fewer than 50 characters, parseResumeFile fails with
the empty-content error. The result holds for every regex state st and
does not consult it: section detection (the only consumer of st) is never
reached. -/
theorem parseResumeFile_short_text (f : FileMeta) (t : Str) (pages : Nat)
    (msgs : List Str) (st : RegexSt) (now : Str)
    (hleg : isLegacyDOC f = false) (hfmt : isPDF f = true ∨ isDOCX f = true)
    (hshort : (trimStr t).length < 50) :
    parseResumeFile f (.ok (t, pages)) (.ok (t, msgs)) st now =
      ImportResult.failure emptyContentError := by
  unfold parseResumeFile
  rw [hleg]
  cases hpdf : isPDF f with
  | true => simp [hpdf, Except.map, hshort]
  | false =>
    have hdocx : isDOCX f = true := by
      rcases hfmt with h | h
      · rw [hpdf] at h; exact absurd h (by decide)
      · exact h
    simp [hpdf, hdocx, Except.map, hshort]

/-- C7 witness: a PDF file with 13 characters of extracted text. -/
theorem parseResumeFile_short_text_witness :
    isLegacyDOC ⟨str "resume.pdf", str "application/pdf"⟩ = false ∧
      isPDF ⟨str "resume.pdf", str "application/pdf"⟩ = true ∧
      (trimStr (str "  too short  ")).length < 50 ∧
      parseResumeFile ⟨str "resume.pdf", str "application/pdf"⟩
          (.ok (str "  too short  ", 1)) (.ok (str "  too short  ", []))
          initRegexSt (str "now") =
        ImportResult.failure emptyContentError :=
  ⟨by decide, by decide, by decide,
    parseResumeFile_short_text ⟨str "resume.pdf", str "application/pdf"⟩
      (str "  too short  ") 1 [] initRegexSt (str "now") (by decide)
      (Or.inl (by decide)) (by decide)⟩

/-- C9: a file recognized as legacy .doc (MIME application/msword or
lowercased name ending in .doc) fails with the legacy-specific message
for all extractor outcomes - the extraction results are universally
quantified and never consulted - and that message is distinct from the
generic unsupported-format message. -/
theorem parseResumeFile_legacy (f : FileMeta)
    (pdfExtract : Except Str (Str × Nat))
    (docxExtract : Except Str (Str × List Str)) (st : RegexSt) (now : Str)
    (h : isLegacyDOC f = true) :
    parseResumeFile f pdfExtract docxExtract st now =
        ImportResult.failure legacyDocError ∧
      legacyDocError ≠ unsupportedFormatError := by
  constructor
  · unfold parseResumeFile
    rw [h]
    simp
  · decide

/-- C9 witness: old.doc with the msword MIME type, with both extractors
erroring (their outcomes are irrelevant). -/
theorem parseResumeFile_legacy_witness :
    isLegacyDOC ⟨str "old.doc", str "application/msword"⟩ = true ∧
      parseResumeFile ⟨str "old.doc", str "application/msword"⟩
          (.error (str "pdf boom")) (.error (str "docx boom")) initRegexSt
          (str "now") =
        ImportResult.failure legacyDocError :=
  ⟨by decide,
    (parseResumeFile_legacy ⟨str "old.doc", str "application/msword"⟩
      (.error (str "pdf boom")) (.error (str "docx boom")) initRegexSt
      (str "now") (by decide)).1⟩

end Resume
